import Mathlib

/-!
Verification of the LedgerLite data-access and aggregation layer.

The definitions in the `LedgerLite` namespace are a shallow embedding of the
repository's Python source:

* `ledgerlite/utils/dates.py` (`get_month_date_range`),
* `ledgerlite/utils/validators.py` (`validate_amount`, `validate_month_string`),
* `ledgerlite/data/repo.py` (`TransactionRepository.get_by_date_range`,
  `search`, `get_totals_by_type`, `delete`; `BudgetRepository.delete`),
* `ledgerlite/app/charts/monthly_trend.py` (`MonthlyTrendChart.get_daily_data`),
* `ledgerlite/app/charts/category_bar.py` (`CategoryBarChart.get_category_data`
  and the re-bucketing step of `update_data`).

The SQLAlchemy/SQLite store is modelled as plain lists of rows; SQL queries
become list filters, sorts (stable merge sort, matching both SQL ordering and
Python's stable `sorted`) and folds.  Python `datetime` values are modelled by
the `DateTime` structure, and `datetime` day arithmetic by conversion to and
from proleptic-Gregorian ordinals, exactly as CPython implements it
(`_ymd2ord` / `_ord2ymd`): the year of an ordinal is recovered by the
146097/36524/1461/365 division cascade with its `n1 == 4 or n100 == 4`
special case, and the month by a search through the month lengths.
Fallible Python code (a `ValueError` from `int()` / unpacking) is modelled
with `Option`.
-/

namespace LedgerLite

/-! ## Calendar model (CPython `datetime` date arithmetic) -/

/-- CPython `_is_leap`: `year % 4 == 0 and (year % 100 != 0 or year % 400 == 0)`. -/
def isLeap (y : Nat) : Bool :=
  decide (y % 4 = 0 ∧ (y % 100 ≠ 0 ∨ y % 400 = 0))

/-- CPython `_days_in_month`: the `_DAYS_IN_MONTH` table with the February
leap-year adjustment. -/
def daysInMonth (y m : Nat) : Nat :=
  if m = 2 then (if isLeap y then 29 else 28)
  else if m = 4 ∨ m = 6 ∨ m = 9 ∨ m = 11 then 30
  else 31

/-- CPython `_days_before_month`: days in year `y` preceding month `m`. -/
def daysBeforeMonth (y m : Nat) : Nat :=
  ((List.range (m - 1)).map (fun k => daysInMonth y (k + 1))).sum

/-- CPython `_days_before_year`: days before January 1st of year `y`
(for `y ≥ 1`). -/
def daysBeforeYear (y : Nat) : Nat :=
  365 * (y - 1) + (y - 1) / 4 - (y - 1) / 100 + (y - 1) / 400

/-- CPython `_ymd2ord`: proleptic-Gregorian ordinal of a date, with
January 1 of year 1 as ordinal 1. -/
def toOrdinal (y m d : Nat) : Nat :=
  daysBeforeYear y + daysBeforeMonth y m + d

/-- Month search used by `fromOrdinal`: starting at month `m` of year `y` with
`rem` days (0-based) still to account for, walk forward through the month
lengths.  `fuel` bounds the walk (11 steps suffice from January). -/
def monthSearch (y : Nat) : Nat → Nat → Nat → Nat × Nat × Nat
  | m, rem, 0 => (y, m, rem + 1)
  | m, rem, fuel + 1 =>
    if rem < daysInMonth y m then (y, m, rem + 1)
    else monthSearch y (m + 1) (rem - daysInMonth y m) fuel

/-- CPython `_ord2ymd`: date of a proleptic-Gregorian ordinal.  The year is
recovered by dividing out 400-year, 100-year, 4-year and 1-year blocks; the
`n1 = 4 ∨ n100 = 4` case is the last day of a leap year sitting at the end of
a 4-year or 400-year block. -/
def fromOrdinal (n : Nat) : Nat × Nat × Nat :=
  let n0 := n - 1
  let n400 := n0 / 146097
  let r400 := n0 % 146097
  let n100 := r400 / 36524
  let r100 := r400 % 36524
  let n4 := r100 / 1461
  let r4 := r100 % 1461
  let n1 := r4 / 365
  let r1 := r4 % 365
  let year := 400 * n400 + 100 * n100 + 4 * n4 + n1 + 1
  if n1 = 4 ∨ n100 = 4 then (year - 1, 12, 31)
  else monthSearch year 1 r1 11

/-- Python `datetime.datetime`, restricted to the fields this program uses. -/
structure DateTime where
  year : Nat
  month : Nat
  day : Nat
  hour : Nat
  minute : Nat
  second : Nat
deriving DecidableEq, Repr

/-- `datetime(y, m, d)` — midnight of the given day. -/
def mkDate (y m d : Nat) : DateTime := ⟨y, m, d, 0, 0, 0⟩

/-- `dt - timedelta(days=k)`: CPython converts the date part to an ordinal,
subtracts, and converts back; the time part is unchanged. -/
def subDays (dt : DateTime) (k : Nat) : DateTime :=
  let p := fromOrdinal (toOrdinal dt.year dt.month dt.day - k)
  ⟨p.1, p.2.1, p.2.2, dt.hour, dt.minute, dt.second⟩

/-! ### Calendar lemmas -/

theorem isLeap_iff (y : Nat) :
    isLeap y = true ↔ (y % 4 = 0 ∧ (y % 100 ≠ 0 ∨ y % 400 = 0)) := by
  simp [isLeap]

theorem daysInMonth_pos (y m : Nat) : 1 ≤ daysInMonth y m := by
  unfold daysInMonth
  split
  · split <;> norm_num
  · split <;> norm_num

theorem daysInMonth_le (y m : Nat) : daysInMonth y m ≤ 31 := by
  unfold daysInMonth
  split
  · split <;> norm_num
  · split <;> norm_num

theorem daysBeforeMonth_one (y : Nat) : daysBeforeMonth y 1 = 0 := by
  simp [daysBeforeMonth]

theorem daysBeforeMonth_succ (y m : Nat) (hm : 1 ≤ m) :
    daysBeforeMonth y (m + 1) = daysBeforeMonth y m + daysInMonth y m := by
  unfold daysBeforeMonth
  have h1 : m + 1 - 1 = (m - 1) + 1 := by omega
  have h2 : m - 1 + 1 = m := by omega
  rw [h1, List.range_succ, List.map_append, List.sum_append]
  simp only [List.map_cons, List.map_nil, List.sum_cons, List.sum_nil, add_zero, h2]

theorem daysBeforeMonth_add (y m k : Nat) (hm : 1 ≤ m) :
    daysBeforeMonth y m ≤ daysBeforeMonth y (m + k) := by
  induction k with
  | zero => exact Nat.le_refl _
  | succ k ih =>
    have h : m + (k + 1) = (m + k) + 1 := by omega
    rw [h, daysBeforeMonth_succ y (m + k) (by omega)]
    omega

theorem daysBeforeMonth_mono (y m m' : Nat) (hm : 1 ≤ m) (h : m ≤ m') :
    daysBeforeMonth y m ≤ daysBeforeMonth y m' := by
  have h' : m' = m + (m' - m) := by omega
  rw [h']
  exact daysBeforeMonth_add y m (m' - m) hm

theorem daysBeforeMonth_13 (y : Nat) :
    daysBeforeMonth y 13 = if isLeap y then 366 else 365 := by
  unfold daysBeforeMonth
  rw [show (13 : Nat) - 1 = 12 from rfl,
    show List.range 12 = [0, 1, 2, 3, 4, 5, 6, 7, 8, 9, 10, 11] from rfl]
  simp only [List.map_cons, List.map_nil, List.sum_cons, List.sum_nil]
  by_cases hl : isLeap y = true
  · rw [if_pos hl]
    norm_num [daysInMonth, hl]
  · rw [if_neg hl]
    simp only [Bool.not_eq_true] at hl
    norm_num [daysInMonth, hl]

theorem daysBeforeYear_succ (y : Nat) (hy : 1 ≤ y) :
    daysBeforeYear (y + 1) = daysBeforeYear y + (if isLeap y then 366 else 365) := by
  have e4 : y / 4 = (y - 1) / 4 + (if y % 4 = 0 then 1 else 0) := by
    split <;> omega
  have e100 : y / 100 = (y - 1) / 100 + (if y % 100 = 0 then 1 else 0) := by
    split <;> omega
  have e400 : y / 400 = (y - 1) / 400 + (if y % 400 = 0 then 1 else 0) := by
    split <;> omega
  have e14 : (y - 1) / 100 ≤ (y - 1) / 4 := by
    apply Nat.div_le_div_left <;> omega
  unfold daysBeforeYear isLeap
  rw [Nat.add_sub_cancel, e4, e100, e400]
  by_cases h4 : y % 4 = 0 <;> by_cases h100 : y % 100 = 0 <;> by_cases h400 : y % 400 = 0 <;>
    simp only [h4, h100, h400, if_true, if_false, ite_true, ite_false, ne_eq,
      not_true, not_false_iff, true_and, false_and, true_or, or_false, or_true, and_true,
      if_pos, not_true_eq_false, not_false_eq_true, false_or,
      decide_eq_true_eq, decide_not, Bool.not_false, Bool.not_true] <;>
    generalize (y - 1) / 4 = q4 at * <;>
    generalize (y - 1) / 100 = q100 at * <;>
    generalize (y - 1) / 400 = q400 at * <;>
    omega

theorem monthSearch_spec (y : Nat) :
    ∀ fuel j m d, 1 ≤ j → j ≤ m → m ≤ 12 → m - j ≤ fuel → 1 ≤ d →
    d ≤ daysInMonth y m →
    monthSearch y j (daysBeforeMonth y m - daysBeforeMonth y j + (d - 1)) fuel = (y, m, d) := by
  intro fuel
  induction fuel with
  | zero =>
    intro j m d h1 h2 h3 h4 h5 h6
    have hjm : m = j := by omega
    subst hjm
    have hrem : daysBeforeMonth y m - daysBeforeMonth y m + (d - 1) = d - 1 := by omega
    rw [hrem]
    simp only [monthSearch]
    rw [show d - 1 + 1 = d from by omega]
  | succ fuel ih =>
    intro j m d h1 h2 h3 h4 h5 h6
    by_cases hjm : j = m
    · subst hjm
      have hrem : daysBeforeMonth y j - daysBeforeMonth y j + (d - 1) = d - 1 := by omega
      rw [hrem]
      simp only [monthSearch]
      rw [if_pos (show d - 1 < daysInMonth y j from by omega)]
      rw [show d - 1 + 1 = d from by omega]
    · have hj : j < m := by omega
      have hs := daysBeforeMonth_succ y j h1
      have hmono := daysBeforeMonth_mono y (j + 1) m (by omega) (by omega)
      simp only [monthSearch]
      rw [if_neg (show ¬ (daysBeforeMonth y m - daysBeforeMonth y j + (d - 1) <
        daysInMonth y j) from by omega)]
      rw [show daysBeforeMonth y m - daysBeforeMonth y j + (d - 1) - daysInMonth y j =
        daysBeforeMonth y m - daysBeforeMonth y (j + 1) + (d - 1) from by omega]
      exact ih (j + 1) m d (by omega) (by omega) h3 (by omega) h5 h6

/-- The CPython ordinal conversion round-trips on every valid proleptic-Gregorian
date: `_ord2ymd (_ymd2ord y m d) = (y, m, d)`. -/
theorem fromOrdinal_toOrdinal (y m d : Nat) (hy : 1 ≤ y) (hm1 : 1 ≤ m) (hm2 : m ≤ 12)
    (hd1 : 1 ≤ d) (hd2 : d ≤ daysInMonth y m) :
    fromOrdinal (toOrdinal y m d) = (y, m, d) := by
  -- decompose the (0-based) year into 400-, 100-, 4- and 1-year blocks
  obtain ⟨a, R, hyaR, hR⟩ : ∃ a R, y - 1 = 400 * a + R ∧ R < 400 :=
    ⟨(y - 1) / 400, (y - 1) % 400, by omega, by omega⟩
  obtain ⟨b, R2, hRb, hR2⟩ : ∃ b R2, R = 100 * b + R2 ∧ R2 < 100 :=
    ⟨R / 100, R % 100, by omega, by omega⟩
  obtain ⟨c, e, hR2c, he⟩ : ∃ c e, R2 = 4 * c + e ∧ e < 4 :=
    ⟨R2 / 4, R2 % 4, by omega, by omega⟩
  have hb : b ≤ 3 := by omega
  have hc : c ≤ 24 := by omega
  have hN : y - 1 = 400 * a + 100 * b + 4 * c + e := by omega
  have hq4 : (y - 1) / 4 = 100 * a + 25 * b + c := by omega
  have hq100 : (y - 1) / 100 = 4 * a + b := by omega
  have hq400 : (y - 1) / 400 = a := by omega
  have hdby : daysBeforeYear y = 146097 * a + 36524 * b + 1461 * c + 365 * e := by
    unfold daysBeforeYear
    rw [hq4, hq100, hq400]
    omega
  have hleapiff : isLeap y = true ↔ (e = 3 ∧ (c ≠ 24 ∨ b = 3)) := by
    rw [isLeap_iff]
    omega
  clear hq4 hq100 hq400 hyaR hRb hR2c hR hR2
  set doy := daysBeforeMonth y m + (d - 1) with hdoy
  have hdoyub : doy ≤ 364 + (if isLeap y then 1 else 0) := by
    have hs := daysBeforeMonth_succ y m hm1
    have hmono := daysBeforeMonth_mono y (m + 1) 13 (by omega) (by omega)
    have h13 := daysBeforeMonth_13 y
    by_cases hl : isLeap y = true <;> simp only [hl, if_true, if_false, ite_true,
      ite_false, Bool.false_eq_true] at h13 ⊢ <;> omega
  have hkey : toOrdinal y m d - 1 =
      146097 * a + 36524 * b + 1461 * c + 365 * e + doy := by
    unfold toOrdinal
    rw [hdby]
    omega
  have hcases : doy ≤ 364 ∨ (doy = 365 ∧ isLeap y = true) := by
    by_cases hl : isLeap y = true <;> simp only [hl, if_true, if_false, ite_true,
      ite_false, Bool.false_eq_true, and_true, and_false, or_false] at hdoyub ⊢ <;> omega
  simp only [fromOrdinal]
  rw [hkey]
  clear hkey hdby hdoyub
  rcases hcases with hle | ⟨h365, hleap⟩
  · -- a day that is not day 366 of a leap year: the generic path
    rw [show (146097 * a + 36524 * b + 1461 * c + 365 * e + doy) / 146097 = a from by omega,
      show (146097 * a + 36524 * b + 1461 * c + 365 * e + doy) % 146097 =
        36524 * b + 1461 * c + 365 * e + doy from by omega,
      show (36524 * b + 1461 * c + 365 * e + doy) / 36524 = b from by omega,
      show (36524 * b + 1461 * c + 365 * e + doy) % 36524 =
        1461 * c + 365 * e + doy from by omega,
      show (1461 * c + 365 * e + doy) / 1461 = c from by omega,
      show (1461 * c + 365 * e + doy) % 1461 = 365 * e + doy from by omega,
      show (365 * e + doy) / 365 = e from by omega,
      show (365 * e + doy) % 365 = doy from by omega]
    rw [if_neg (show ¬ (e = 4 ∨ b = 4) from by omega)]
    rw [show 400 * a + 100 * b + 4 * c + e + 1 = y from by omega]
    rw [show doy = daysBeforeMonth y m - daysBeforeMonth y 1 + (d - 1) from by
      rw [daysBeforeMonth_one]; omega]
    exact monthSearch_spec y 11 1 m d (by omega) hm1 hm2 (by omega) hd1 hd2
  · -- day 366 of a leap year (December 31st): the special-cased path
    obtain ⟨he3, hcb⟩ := hleapiff.mp hleap
    subst he3
    have h13 := daysBeforeMonth_13 y
    rw [if_pos hleap] at h13
    have hs12 : daysBeforeMonth y 13 = daysBeforeMonth y 12 + daysInMonth y 12 := by
      have h := daysBeforeMonth_succ y 12 (by norm_num)
      norm_num at h
      exact h
    have hdim12 : daysInMonth y 12 = 31 := by norm_num [daysInMonth]
    have hm12 : m = 12 := by
      by_contra hne
      have hmono := daysBeforeMonth_mono y (m + 1) 12 (by omega) (by omega)
      have hs := daysBeforeMonth_succ y m hm1
      have hdimle := daysInMonth_le y m
      omega
    subst hm12
    have hd31 : d = 31 := by omega
    subst hd31
    by_cases hc24 : c = 24
    · have hb3 : b = 3 := by
        rcases hcb with h | h
        · exact absurd hc24 h
        · exact h
      subst hc24
      subst hb3
      rw [show (146097 * a + 36524 * 3 + 1461 * 24 + 365 * 3 + doy) / 146097 = a from by
          omega,
        show (146097 * a + 36524 * 3 + 1461 * 24 + 365 * 3 + doy) % 146097 = 146096 from by
          omega]
      rw [show (146096 : Nat) / 36524 = 4 from by norm_num,
        show (146096 : Nat) % 36524 = 0 from by norm_num]
      norm_num
      omega
    · rw [show (146097 * a + 36524 * b + 1461 * c + 365 * 3 + doy) / 146097 = a from by
          omega,
        show (146097 * a + 36524 * b + 1461 * c + 365 * 3 + doy) % 146097 =
          36524 * b + 1461 * c + 1460 from by omega,
        show (36524 * b + 1461 * c + 1460) / 36524 = b from by omega,
        show (36524 * b + 1461 * c + 1460) % 36524 = 1461 * c + 1460 from by omega,
        show (1461 * c + 1460) / 1461 = c from by omega,
        show (1461 * c + 1460) % 1461 = 1460 from by omega,
        show (1460 : Nat) / 365 = 4 from by norm_num,
        show (1460 : Nat) % 365 = 0 from by norm_num]
      rw [if_pos (Or.inl rfl)]
      rw [show 400 * a + 100 * b + 4 * c + 4 + 1 - 1 = y from by omega]

/-! ## Entity model (`ledgerlite/data/models.py`) -/

/-- Python `datetime` comparison: lexicographic on the six fields. -/
def dtLeP (a b : DateTime) : Prop :=
  a.year < b.year ∨ (a.year = b.year ∧ (a.month < b.month ∨ (a.month = b.month ∧
    (a.day < b.day ∨ (a.day = b.day ∧ (a.hour < b.hour ∨ (a.hour = b.hour ∧
    (a.minute < b.minute ∨ (a.minute = b.minute ∧ a.second ≤ b.second)))))))))

instance (a b : DateTime) : Decidable (dtLeP a b) := by
  unfold dtLeP
  infer_instance

/-- Boolean form of `dtLeP`, used by the SQL-query models. -/
def dtLe (a b : DateTime) : Bool := decide (dtLeP a b)

/-- The `type` column of transactions and categories
(`expense` / `income` closed enumeration). -/
inductive TxnType where
  | income
  | expense
deriving DecidableEq, Repr

/-- A row of the `transactions` table. -/
structure Txn where
  id : Nat
  accountId : Nat
  categoryId : Nat
  date : DateTime
  amount : ℚ
  type : TxnType
  note : Option String
deriving DecidableEq, Repr

/-- A row of the `categories` table. -/
structure Category where
  id : Nat
  name : String
  type : TxnType
deriving DecidableEq, Repr

/-- A row of the `budgets` table. -/
structure Budget where
  id : Nat
  categoryId : Nat
  month : String
  amountCap : ℚ
deriving DecidableEq, Repr

/-! ## SQL `lower()` and `LIKE`, used by `Transaction.note.ilike(...)` -/

/-- SQLite `lower()`: ASCII-only case folding (the table `A..Z ↦ a..z`). -/
def lowerChar : Char → Char
  | 'A' => 'a'
  | 'B' => 'b'
  | 'C' => 'c'
  | 'D' => 'd'
  | 'E' => 'e'
  | 'F' => 'f'
  | 'G' => 'g'
  | 'H' => 'h'
  | 'I' => 'i'
  | 'J' => 'j'
  | 'K' => 'k'
  | 'L' => 'l'
  | 'M' => 'm'
  | 'N' => 'n'
  | 'O' => 'o'
  | 'P' => 'p'
  | 'Q' => 'q'
  | 'R' => 'r'
  | 'S' => 's'
  | 'T' => 't'
  | 'U' => 'u'
  | 'V' => 'v'
  | 'W' => 'w'
  | 'X' => 'x'
  | 'Y' => 'y'
  | 'Z' => 'z'
  | c => c

/-- `lower()` applied to a whole string (as a character list). -/
def lowerList (l : List Char) : List Char := l.map lowerChar

/-- SQL `LIKE` pattern matching: `%` matches any (possibly empty) substring
(equivalently, the rest of the pattern may match any suffix of the string),
`_` matches exactly one character, any other pattern character matches
itself. -/
def likeMatch : List Char → List Char → Bool
  | [], s => s.isEmpty
  | c :: p, s =>
    if c = '%' then
      s.tails.any (fun s2 => likeMatch p s2)
    else
      match s with
      | [] => false
      | d :: s' => (if c = '_' then true else c = d) && likeMatch p s'

/-- `note ILIKE '%term%'` as SQLAlchemy compiles it for SQLite:
`lower(note) LIKE lower('%' + term + '%')`.  A SQL `NULL` note
(`t.note = none`) never matches. -/
def noteMatches (note : Option String) (term : String) : Bool :=
  match note with
  | none => false
  | some n => likeMatch (lowerList ('%' :: term.data ++ ['%'])) (lowerList n.data)

/-! ## Repositories (`ledgerlite/data/repo.py`) -/

/-- `TransactionRepository.get_by_date_range(start, end)`: both bounds
inclusive, ordered by date descending. -/
def TransactionRepository.get_by_date_range
    (store : List Txn) (s e : DateTime) : List Txn :=
  (store.filter (fun t => dtLe s t.date && dtLe t.date e)).mergeSort
    (fun a b => dtLe b.date a.date)

/-- `TransactionRepository.search(term)`: `note ILIKE '%term%'`, ordered by
date descending. -/
def TransactionRepository.search (store : List Txn) (term : String) : List Txn :=
  (store.filter (fun t => noteMatches t.note term)).mergeSort
    (fun a b => dtLe b.date a.date)

/-- SQL `SUM(amount)`: `NULL` on an empty row set. -/
def sqlSum (l : List ℚ) : Option ℚ :=
  if l.isEmpty then none else some l.sum

/-- Python `x or Decimal("0")` applied to a `SUM` result: `None` and `0` are
both falsy, everything else is returned unchanged. -/
def pyOrZero (o : Option ℚ) : ℚ :=
  match o with
  | none => 0
  | some v => if v = 0 then 0 else v

/-- The optional date-window filter of `get_totals_by_type`: each `filter`
is applied only when the corresponding bound is present (`if start_date:` is
a `None` test, since `datetime` objects are always truthy). -/
def windowB (startDate endDate : Option DateTime) (t : Txn) : Bool :=
  (match startDate with
   | some sd => dtLe sd t.date
   | none => true) &&
  (match endDate with
   | some ed => dtLe t.date ed
   | none => true)

/-- `TransactionRepository.get_totals_by_type(start_date, end_date)`:
optional inclusive window filters, then `SUM` per type with
`... or Decimal("0")`. -/
def TransactionRepository.get_totals_by_type
    (store : List Txn) (startDate endDate : Option DateTime) : ℚ × ℚ :=
  let q := store.filter (windowB startDate endDate)
  (pyOrZero (sqlSum ((q.filter (fun t => t.type == TxnType.income)).map Txn.amount)),
   pyOrZero (sqlSum ((q.filter (fun t => t.type == TxnType.expense)).map Txn.amount)))

/-- `TransactionRepository.delete(transaction_id)`: fetch the first row with
that primary key; if present remove it and return `True`, else return
`False`. -/
def TransactionRepository.delete (store : List Txn) (i : Nat) : List Txn × Bool :=
  match store.find? (fun t => t.id == i) with
  | some _ => (store.eraseP (fun t => t.id == i), true)
  | none => (store, false)

/-- `BudgetRepository.delete(budget_id)`: same shape as the transaction
delete. -/
def BudgetRepository.delete (store : List Budget) (i : Nat) : List Budget × Bool :=
  match store.find? (fun b => b.id == i) with
  | some _ => (store.eraseP (fun b => b.id == i), true)
  | none => (store, false)

/-! ## Month-token parsing and `get_month_date_range`
(`ledgerlite/utils/dates.py`) -/

/-- ASCII decimal digit test (the `\d` fragment used by the month tokens). -/
def isAsciiDigit (c : Char) : Bool := 48 ≤ c.toNat && c.toNat ≤ 57

/-- Numeric value of an ASCII digit. -/
def digVal (c : Char) : Nat := c.toNat - 48

/-- Python `int(s)` restricted to nonempty all-ASCII-digit strings; every
other input is a `ValueError` (`none`). -/
def pyInt (l : List Char) : Option Nat :=
  if l ≠ [] ∧ ∀ c ∈ l, isAsciiDigit c then
    some (l.foldl (fun acc c => 10 * acc + digVal c) 0)
  else none

/-- Worker for `str.split("-")`: `cur` holds the current chunk reversed. -/
def splitDashGo : List Char → List Char → List (List Char)
  | cur, [] => [cur.reverse]
  | cur, c :: rest =>
    if c = '-' then cur.reverse :: splitDashGo [] rest
    else splitDashGo (c :: cur) rest

/-- `year, month_num = map(int, month.split("-"))`: `none` models the
`ValueError` raised on a malformed token (wrong number of parts or a
non-numeric part). -/
def parseMonth (s : String) : Option (Nat × Nat) :=
  match splitDashGo [] s.data with
  | [ys, ms] =>
    match pyInt ys, pyInt ms with
    | some y, some mo => some (y, mo)
    | _, _ => none
  | _ => none

/-- The start/end pair computed by `get_month_date_range` once the token is
parsed: start is `datetime(year, month, 1)`; the end is the first day of the
next month (with December rolling over to January of the next year) minus
one day. -/
def monthRange (y mo : Nat) : DateTime × DateTime :=
  (mkDate y mo 1,
   if mo = 12 then subDays (mkDate (y + 1) 1 1) 1 else subDays (mkDate y (mo + 1) 1) 1)

/-- `get_month_date_range(month)` from `ledgerlite/utils/dates.py`. -/
def get_month_date_range (s : String) : Option (DateTime × DateTime) :=
  (parseMonth s).map (fun p => monthRange p.1 p.2)

/-! ## Chart data (`ledgerlite/app/charts/`) -/

/-- `MonthlyTrendChart.get_daily_data(month)`: recomputes the month range
(inline, identically to `get_month_date_range`), fetches the transactions in
the range, groups them by calendar day, and walks the days of the month in
ascending order emitting `income - expense` per day (zero for days with no
transactions).  The day walk (`current_date += timedelta(days=1)` while
`current_date <= end_date.date()`) is modelled through day ordinals. -/
def MonthlyTrendChart.get_daily_data
    (store : List Txn) (month : String) : Option (List (DateTime × ℚ)) :=
  match parseMonth month with
  | none => none
  | some (y, mo) =>
    let r := monthRange y mo
    let e := r.2
    let fetched := TransactionRepository.get_by_date_range store r.1 e
    let n := toOrdinal e.year e.month e.day + 1 - toOrdinal y mo 1
    some ((List.range n).map (fun i =>
      let p := fromOrdinal (toOrdinal y mo 1 + i)
      let dayTx := fetched.filter (fun t =>
        t.date.year == p.1 && t.date.month == p.2.1 && t.date.day == p.2.2)
      let inc := ((dayTx.filter (fun t => t.type == TxnType.income)).map Txn.amount).sum
      let exp := ((dayTx.filter (fun t => t.type == TxnType.expense)).map Txn.amount).sum
      (mkDate p.1 p.2.1 p.2.2, inc - exp)))

/-- Python `dict` assignment `d[k] = v` for a `str`-keyed dict preserved in
insertion order: overwrite in place if the key exists, else append. -/
def dictInsert (l : List (String × ℚ)) (k : String) (v : ℚ) : List (String × ℚ) :=
  if l.any (fun p => p.1 == k) then
    l.map (fun p => if p.1 == k then (k, v) else p)
  else l ++ [(k, v)]

/-- The loop body's total for one category: the amount sum of that
category's expense transactions among the fetched rows. -/
def categoryTotalIn (fetched : List Txn) (c : Category) : ℚ :=
  ((fetched.filter (fun t =>
    t.categoryId == c.id && t.type == TxnType.expense)).map Txn.amount).sum

/-- `CategoryBarChart.get_category_data(month)`: recomputes the month range
inline, takes the expense categories in name order
(`CategoryRepository.get_by_type("expense")`), and for each one sums the
amounts of its expense transactions in the range (the transactions are
re-fetched on every loop iteration, exactly as in the source), recording the
total in the result dict only when it is strictly positive. -/
def CategoryBarChart.get_category_data
    (store : List Txn) (cats : List Category) (month : String) :
    Option (List (String × ℚ)) :=
  match parseMonth month with
  | none => none
  | some (y, mo) =>
    let r := monthRange y mo
    let expenseCats := (cats.filter (fun c => c.type == TxnType.expense)).mergeSort
      (fun a b => decide (a.name ≤ b.name))
    some (expenseCats.foldl (fun acc c =>
      if 0 < categoryTotalIn (TransactionRepository.get_by_date_range store r.1 r.2) c then
        dictInsert acc c.name
          (categoryTotalIn (TransactionRepository.get_by_date_range store r.1 r.2) c)
      else acc) [])

/-- The re-bucketing step of `CategoryBarChart.update_data`: sort the
category totals by amount descending (Python's stable `sorted` with
`reverse=True`); when more than 8 categories remain, keep the top 7 and add
an `"Other"` bucket holding the sum of the rest, but only when that sum is
positive. -/
def CategoryBarChart.rebucket (data : List (String × ℚ)) : List (String × ℚ) :=
  let sorted := data.mergeSort (fun a b => decide (b.2 ≤ a.2))
  if 8 < sorted.length then
    let top := sorted.take 7
    let other := ((sorted.drop 7).map Prod.snd).sum
    if 0 < other then top ++ [("Other", other)] else top
  else sorted

/-! ## Validators (`ledgerlite/utils/validators.py`) -/

/-- Python `str.strip()`: drop leading and trailing whitespace. -/
def pyStrip (l : List Char) : List Char :=
  ((l.dropWhile Char.isWhitespace).reverse.dropWhile Char.isWhitespace).reverse

/-- `decimal.Decimal(s)` on the plain numeric-literal fragment
(`[+-]? digits [. digits]`, at least one digit): `none` models
`InvalidOperation`.  Exponent and special forms (`1e3`, `NaN`, `Infinity`)
are outside the fragment this program's claims exercise; note that `NaN`
would be caught by the same `except InvalidOperation` handler when compared
against zero. -/
def parseDecimal (l : List Char) : Option ℚ :=
  let sign : ℚ := match l with
    | '-' :: _ => -1
    | _ => 1
  let rest := match l with
    | '+' :: r => r
    | '-' :: r => r
    | r => r
  let intPart := rest.takeWhile isAsciiDigit
  let rest2 := rest.drop intPart.length
  let natVal := fun (ds : List Char) => ds.foldl (fun a c => 10 * a + digVal c) 0
  match rest2 with
  | [] => if intPart = [] then none else some (sign * (natVal intPart : ℚ))
  | '.' :: frac =>
    if (∀ c ∈ frac, isAsciiDigit c) ∧ (intPart ≠ [] ∨ frac ≠ []) then
      some (sign * ((natVal intPart : ℚ) + (natVal frac : ℚ) / (10 ^ frac.length)))
    else none
  | _ => none

/-- `validate_amount(amount_str)`: empty check, currency-symbol and
thousands-separator stripping, `Decimal` parse, strict positivity check;
returns `(is_valid, parsed_amount, error_message)` and never raises. -/
def validate_amount (s : String) : Bool × Option ℚ × Option String :=
  if s.data = [] ∨ pyStrip s.data = [] then
    (false, none, some "Amount cannot be empty")
  else
    let cleaned := pyStrip (s.data.filter
      (fun c => !(c == '$' || c == '€' || c == '£' || c == ',')))
    match parseDecimal cleaned with
    | none => (false, none, some "Invalid amount format")
    | some a =>
      if a ≤ 0 then (false, none, some "Amount must be greater than zero")
      else (true, some a, none)

/-- The first codepoints of the runs of ten consecutive Unicode decimal
digits (category `Nd`, digit values 0-9 in order) — the character class
Python's `\d` and `int()` accept.  Table generated from the Unicode 14.0
database shipped with CPython 3.11. -/
def ndRunStarts : List Nat :=
  [48, 1632, 1776, 1984, 2406, 2534, 2662, 2790, 2918, 3046, 3174, 3302,
   3430, 3558, 3664, 3792, 3872, 4160, 4240, 6112, 6160, 6470, 6608, 6784,
   6800, 6992, 7088, 7232, 7248, 42528, 43216, 43264, 43472, 43504, 43600,
   44016, 65296, 66720, 68912, 69734, 69872, 69942, 70096, 70384, 70736,
   70864, 71248, 71360, 71472, 71904, 72016, 72784, 73040, 73120, 92768,
   92864, 93008, 120782, 120792, 120802, 120812, 120822, 123200, 123632,
   125264, 130032]

/-- Decimal value of a Unicode decimal digit (`none` for any other
character). -/
def ndDigitVal (c : Char) : Option Nat :=
  ndRunStarts.findSome? (fun b =>
    if b ≤ c.toNat ∧ c.toNat < b + 10 then some (c.toNat - b) else none)

/-- Python regex `\d`: any Unicode decimal digit. -/
def isNdDigit (c : Char) : Bool := (ndDigitVal c).isSome

/-- The digit's value (0 when the character is not a digit). -/
def ndVal (c : Char) : Nat := (ndDigitVal c).getD 0

/-- Python `int(s)` on the fragment reachable behind the month regex:
optional surrounding whitespace (only a trailing newline can occur here)
around a nonempty run of Unicode decimal digits.  Sign and underscore forms
cannot pass the regex. -/
def pyIntNd (l : List Char) : Option Nat :=
  if pyStrip l ≠ [] ∧ ∀ c ∈ pyStrip l, isNdDigit c then
    some ((pyStrip l).foldl (fun a c => 10 * a + ndVal c) 0)
  else none

/-- `re.match(r'^\d{4}-\d{2}$', month)` with Python's semantics: `\d` is
any Unicode decimal digit, and `$` matches at the end of the string or just
before a single trailing newline. -/
def regexMonthOk : List Char → Bool
  | [c1, c2, c3, c4, h, c5, c6] =>
    isNdDigit c1 && isNdDigit c2 && isNdDigit c3 && isNdDigit c4 && h = '-' &&
    isNdDigit c5 && isNdDigit c6
  | [c1, c2, c3, c4, h, c5, c6, nl] =>
    isNdDigit c1 && isNdDigit c2 && isNdDigit c3 && isNdDigit c4 && h = '-' &&
    isNdDigit c5 && isNdDigit c6 && nl = '\n'
  | _ => false

/-- `validate_month_string(month)`: empty check, `re.match(r'^\d{4}-\d{2}$')`
with the real `\d`/`$` semantics, then `split("-")` plus `int()` and the
numeric month and year range checks.  The regex guarantees exactly one dash
and digit-only parts, so the split yields two parts and `int()` cannot
raise; the `except ValueError` arm is modelled but unreachable. -/
def validate_month_string (s : String) : Bool × Option String :=
  if s.data = [] then (false, some "Month cannot be empty")
  else if regexMonthOk s.data then
    match splitDashGo [] s.data with
    | [ys, ms] =>
      match pyIntNd ys, pyIntNd ms with
      | some year, some monthNum =>
        if 1 ≤ monthNum ∧ monthNum ≤ 12 then
          if 1900 ≤ year ∧ year ≤ 2100 then (true, none)
          else (false, some "Year must be between 1900 and 2100")
        else (false, some "Month must be between 01 and 12")
      | _, _ => (false, some "Invalid month format. Use YYYY-MM")
    | _ => (false, some "Invalid month format. Use YYYY-MM")
  else (false, some "Invalid month format. Use YYYY-MM")

/-! ## Specification-side definitions -/

/-- The last calendar day of a month as the specification describes it:
31/30 per month, February 29 in leap years ("divisible by 4 except
centuries, but quadricentennials are leap") and 28 otherwise. -/
def lastDayOfMonth (y m : Nat) : Nat :=
  if m = 2 then (if (y % 4 = 0 ∧ y % 100 ≠ 0) ∨ y % 400 = 0 then 29 else 28)
  else if m = 4 ∨ m = 6 ∨ m = 9 ∨ m = 11 then 30
  else 31

theorem lastDayOfMonth_eq (y m : Nat) : lastDayOfMonth y m = daysInMonth y m := by
  have hiff : ((y % 4 = 0 ∧ y % 100 ≠ 0) ∨ y % 400 = 0) ↔ isLeap y = true := by
    rw [isLeap_iff]
    omega
  unfold lastDayOfMonth daysInMonth
  simp only [hiff]

/-! ## Shared range lemma -/

/-- `get_month_date_range`'s arithmetic lands exactly on the month bounds:
start is day 1 at midnight, end is the last calendar day at midnight. -/
theorem monthRange_eq (y mo : Nat) (hy : 1 ≤ y) (hm1 : 1 ≤ mo) (hm2 : mo ≤ 12) :
    monthRange y mo = (mkDate y mo 1, mkDate y mo (daysInMonth y mo)) := by
  unfold monthRange subDays
  by_cases h12 : mo = 12
  · subst h12
    have hdim : daysInMonth y 12 = 31 := by norm_num [daysInMonth]
    have h13 : daysBeforeMonth y 13 = daysBeforeMonth y 12 + daysInMonth y 12 := by
      have h := daysBeforeMonth_succ y 12 (by norm_num)
      norm_num at h
      exact h
    have h13v := daysBeforeMonth_13 y
    have hord : toOrdinal (y + 1) 1 1 - 1 = toOrdinal y 12 31 := by
      unfold toOrdinal
      rw [daysBeforeYear_succ y hy, daysBeforeMonth_one]
      by_cases hl : isLeap y = true <;>
        simp only [hl, if_true, if_false, ite_true, ite_false, Bool.false_eq_true]
          at h13v ⊢ <;> omega
    rw [if_pos rfl]
    simp only [mkDate, hord,
      fromOrdinal_toOrdinal y 12 31 hy (by norm_num) (by norm_num) (by norm_num)
        (by omega), hdim]
  · rw [if_neg h12]
    have hsucc := daysBeforeMonth_succ y mo hm1
    have hord : toOrdinal y (mo + 1) 1 - 1 = toOrdinal y mo (daysInMonth y mo) := by
      unfold toOrdinal
      omega
    rw [mkDate, mkDate, mkDate]
    simp only [hord,
      fromOrdinal_toOrdinal y mo (daysInMonth y mo) hy hm1 hm2 (daysInMonth_pos y mo)
        (Nat.le_refl _)]

/-! ## Claim C1 -/

/-- C1: for every month token that parses to a valid month (year at least 1,
month 1-12), `get_month_date_range` returns day 1 of the month at midnight
and the last calendar day of the month — with the December rollover and
February's 28/29-day leap behaviour — as computed by taking the first day of
the next month and subtracting one day. -/
theorem C1_get_month_date_range_bounds (M : String) (y mo : Nat)
    (hp : parseMonth M = some (y, mo)) (hy : 1 ≤ y) (hm1 : 1 ≤ mo) (hm2 : mo ≤ 12) :
    get_month_date_range M = some (mkDate y mo 1, mkDate y mo (lastDayOfMonth y mo)) := by
  unfold get_month_date_range
  rw [hp]
  simp only [Option.map]
  rw [monthRange_eq y mo hy hm1 hm2, lastDayOfMonth_eq]

/-- C1 witness: February 2024 is a leap February — the range runs from
2024-02-01 to 2024-02-29, both at midnight. -/
theorem C1_witness :
    get_month_date_range "2024-02" = some (mkDate 2024 2 1, mkDate 2024 2 29) := by
  have h := C1_get_month_date_range_bounds "2024-02" 2024 2 (by decide) (by decide)
    (by decide) (by decide)
  rw [h]
  decide

/-! ## Claim C9 -/

/-- The month-token grammar exactly as the specification states it: the
literal shape `YYYY-MM` (four ASCII digits, a dash, two ASCII digits) whose
month value is 01-12 and whose year value is 1900-2100. -/
def monthTokenSpec (s : String) : Prop :=
  ∃ c1 c2 c3 c4 c5 c6,
    s.data = [c1, c2, c3, c4, '-', c5, c6] ∧
    (isAsciiDigit c1 ∧ isAsciiDigit c2 ∧ isAsciiDigit c3 ∧ isAsciiDigit c4 ∧
      isAsciiDigit c5 ∧ isAsciiDigit c6) ∧
    1 ≤ 10 * digVal c5 + digVal c6 ∧ 10 * digVal c5 + digVal c6 ≤ 12 ∧
    1900 ≤ 1000 * digVal c1 + 100 * digVal c2 + 10 * digVal c3 + digVal c4 ∧
    1000 * digVal c1 + 100 * digVal c2 + 10 * digVal c3 + digVal c4 ≤ 2100

theorem isNdDigit_not_whitespace (c : Char) (h : isNdDigit c = true) :
    Char.isWhitespace c = false := by
  cases hw : Char.isWhitespace c
  · rfl
  · exfalso
    have hcs : ((c = ' ' ∨ c = '\t') ∨ c = '\x0d') ∨ c = '\n' := by
      simpa [Char.isWhitespace, Bool.or_eq_true, decide_eq_true_eq] using hw
    rcases hcs with ((rfl | rfl) | rfl) | rfl <;> exact absurd h (by decide)

theorem isNdDigit_ne_dash (c : Char) (h : isNdDigit c = true) : c ≠ '-' := by
  intro heq
  subst heq
  exact absurd h (by decide)

theorem dropWhile_eq_self (p : Char → Bool) (l : List Char)
    (h : ∀ c ∈ l, p c = false) : l.dropWhile p = l := by
  cases l with
  | nil => rfl
  | cons a t =>
    rw [List.dropWhile_cons, if_neg (by simp [h a (by simp)])]

theorem pyStrip_of_digits (l : List Char) (h : ∀ c ∈ l, isNdDigit c = true) :
    pyStrip l = l := by
  unfold pyStrip
  rw [dropWhile_eq_self _ _ (fun c hc => isNdDigit_not_whitespace c (h c hc))]
  rw [dropWhile_eq_self _ _ (fun c hc =>
    isNdDigit_not_whitespace c (h c (List.mem_reverse.mp hc)))]
  exact List.reverse_reverse l

theorem pyStrip_digits_newline (a b : Char) (ha : isNdDigit a = true)
    (hb : isNdDigit b = true) : pyStrip [a, b, '\n'] = [a, b] := by
  unfold pyStrip
  have ha' := isNdDigit_not_whitespace a ha
  have hb' := isNdDigit_not_whitespace b hb
  rw [List.dropWhile_cons, if_neg (by simp [ha'])]
  rw [show ([a, b, '\n'] : List Char).reverse = ['\n', b, a] from by simp]
  rw [List.dropWhile_cons, if_pos (by decide)]
  rw [List.dropWhile_cons, if_neg (by simp [hb'])]
  simp

theorem pyIntNd_pair (a b : Char) (ha : isNdDigit a = true)
    (hb : isNdDigit b = true) :
    pyIntNd [a, b] = some (10 * ndVal a + ndVal b) := by
  have hall : ∀ c ∈ ([a, b] : List Char), isNdDigit c = true := by
    intro c hc
    simp only [List.mem_cons, List.not_mem_nil, or_false] at hc
    rcases hc with rfl | rfl
    · exact ha
    · exact hb
  unfold pyIntNd
  rw [pyStrip_of_digits [a, b] hall]
  rw [if_pos ⟨by simp, hall⟩]
  congr 1
  simp only [List.foldl_cons, List.foldl_nil]
  ring

theorem pyIntNd_pair_newline (a b : Char) (ha : isNdDigit a = true)
    (hb : isNdDigit b = true) :
    pyIntNd [a, b, '\n'] = some (10 * ndVal a + ndVal b) := by
  have hall : ∀ c ∈ ([a, b] : List Char), isNdDigit c = true := by
    intro c hc
    simp only [List.mem_cons, List.not_mem_nil, or_false] at hc
    rcases hc with rfl | rfl
    · exact ha
    · exact hb
  unfold pyIntNd
  rw [pyStrip_digits_newline a b ha hb]
  rw [if_pos ⟨by simp, hall⟩]
  congr 1
  simp only [List.foldl_cons, List.foldl_nil]
  ring

theorem pyIntNd_quad (c1 c2 c3 c4 : Char) (h1 : isNdDigit c1 = true)
    (h2 : isNdDigit c2 = true) (h3 : isNdDigit c3 = true)
    (h4 : isNdDigit c4 = true) :
    pyIntNd [c1, c2, c3, c4] =
      some (1000 * ndVal c1 + 100 * ndVal c2 + 10 * ndVal c3 + ndVal c4) := by
  have hall : ∀ c ∈ ([c1, c2, c3, c4] : List Char), isNdDigit c = true := by
    intro c hc
    simp only [List.mem_cons, List.not_mem_nil, or_false] at hc
    rcases hc with rfl | rfl | rfl | rfl
    · exact h1
    · exact h2
    · exact h3
    · exact h4
  unfold pyIntNd
  rw [pyStrip_of_digits [c1, c2, c3, c4] hall]
  rw [if_pos ⟨by simp, hall⟩]
  congr 1
  simp only [List.foldl_cons, List.foldl_nil]
  ring

theorem splitDash_seven (c1 c2 c3 c4 c5 c6 : Char)
    (h1 : c1 ≠ '-') (h2 : c2 ≠ '-') (h3 : c3 ≠ '-') (h4 : c4 ≠ '-')
    (h5 : c5 ≠ '-') (h6 : c6 ≠ '-') :
    splitDashGo [] [c1, c2, c3, c4, '-', c5, c6] = [[c1, c2, c3, c4], [c5, c6]] := by
  simp [splitDashGo, h1, h2, h3, h4, h5, h6]

theorem splitDash_eight (c1 c2 c3 c4 c5 c6 : Char)
    (h1 : c1 ≠ '-') (h2 : c2 ≠ '-') (h3 : c3 ≠ '-') (h4 : c4 ≠ '-')
    (h5 : c5 ≠ '-') (h6 : c6 ≠ '-') :
    splitDashGo [] [c1, c2, c3, c4, '-', c5, c6, '\n'] =
      [[c1, c2, c3, c4], [c5, c6, '\n']] := by
  simp +decide [splitDashGo, h1, h2, h3, h4, h5, h6]

theorem regexMonthOk_shape (l : List Char) (h : regexMonthOk l = true) :
    ∃ c1 c2 c3 c4 c5 c6,
      (l = [c1, c2, c3, c4, '-', c5, c6] ∨ l = [c1, c2, c3, c4, '-', c5, c6, '\n']) ∧
      (isNdDigit c1 = true ∧ isNdDigit c2 = true ∧ isNdDigit c3 = true ∧
       isNdDigit c4 = true ∧ isNdDigit c5 = true ∧ isNdDigit c6 = true) := by
  unfold regexMonthOk at h
  split at h
  · rename_i c1 c2 c3 c4 cd c5 c6
    simp only [Bool.and_eq_true, decide_eq_true_eq] at h
    obtain ⟨⟨⟨⟨⟨⟨h1, h2⟩, h3⟩, h4⟩, hdash⟩, h5⟩, h6⟩ := h
    subst hdash
    exact ⟨c1, c2, c3, c4, c5, c6, Or.inl rfl, h1, h2, h3, h4, h5, h6⟩
  · rename_i c1 c2 c3 c4 cd c5 c6 nl
    simp only [Bool.and_eq_true, decide_eq_true_eq] at h
    obtain ⟨⟨⟨⟨⟨⟨⟨h1, h2⟩, h3⟩, h4⟩, hdash⟩, h5⟩, h6⟩, hnl⟩ := h
    subst hdash
    subst hnl
    exact ⟨c1, c2, c3, c4, c5, c6, Or.inr rfl, h1, h2, h3, h4, h5, h6⟩
  · exact absurd h (by simp)

theorem validate_shape7_eval (s : String) (c1 c2 c3 c4 c5 c6 : Char)
    (hd : s.data = [c1, c2, c3, c4, '-', c5, c6])
    (h1 : isNdDigit c1 = true) (h2 : isNdDigit c2 = true)
    (h3 : isNdDigit c3 = true) (h4 : isNdDigit c4 = true)
    (h5 : isNdDigit c5 = true) (h6 : isNdDigit c6 = true) :
    validate_month_string s =
      (if 1 ≤ 10 * ndVal c5 + ndVal c6 ∧ 10 * ndVal c5 + ndVal c6 ≤ 12 then
        if 1900 ≤ 1000 * ndVal c1 + 100 * ndVal c2 + 10 * ndVal c3 + ndVal c4 ∧
            1000 * ndVal c1 + 100 * ndVal c2 + 10 * ndVal c3 + ndVal c4 ≤ 2100 then
          (true, none)
        else (false, some "Year must be between 1900 and 2100")
      else (false, some "Month must be between 01 and 12")) := by
  unfold validate_month_string
  rw [hd]
  rw [if_neg (by simp)]
  rw [if_pos (show regexMonthOk [c1, c2, c3, c4, '-', c5, c6] = true from by
    simp [regexMonthOk, h1, h2, h3, h4, h5, h6])]
  simp only [splitDash_seven c1 c2 c3 c4 c5 c6 (isNdDigit_ne_dash _ h1)
      (isNdDigit_ne_dash _ h2) (isNdDigit_ne_dash _ h3) (isNdDigit_ne_dash _ h4)
      (isNdDigit_ne_dash _ h5) (isNdDigit_ne_dash _ h6),
    pyIntNd_quad c1 c2 c3 c4 h1 h2 h3 h4, pyIntNd_pair c5 c6 h5 h6]

theorem validate_shape8_eval (s : String) (c1 c2 c3 c4 c5 c6 : Char)
    (hd : s.data = [c1, c2, c3, c4, '-', c5, c6, '\n'])
    (h1 : isNdDigit c1 = true) (h2 : isNdDigit c2 = true)
    (h3 : isNdDigit c3 = true) (h4 : isNdDigit c4 = true)
    (h5 : isNdDigit c5 = true) (h6 : isNdDigit c6 = true) :
    validate_month_string s =
      (if 1 ≤ 10 * ndVal c5 + ndVal c6 ∧ 10 * ndVal c5 + ndVal c6 ≤ 12 then
        if 1900 ≤ 1000 * ndVal c1 + 100 * ndVal c2 + 10 * ndVal c3 + ndVal c4 ∧
            1000 * ndVal c1 + 100 * ndVal c2 + 10 * ndVal c3 + ndVal c4 ≤ 2100 then
          (true, none)
        else (false, some "Year must be between 1900 and 2100")
      else (false, some "Month must be between 01 and 12")) := by
  unfold validate_month_string
  rw [hd]
  rw [if_neg (by simp)]
  rw [if_pos (show regexMonthOk [c1, c2, c3, c4, '-', c5, c6, '\n'] = true from by
    simp +decide [regexMonthOk, h1, h2, h3, h4, h5, h6])]
  simp only [splitDash_eight c1 c2 c3 c4 c5 c6 (isNdDigit_ne_dash _ h1)
      (isNdDigit_ne_dash _ h2) (isNdDigit_ne_dash _ h3) (isNdDigit_ne_dash _ h4)
      (isNdDigit_ne_dash _ h5) (isNdDigit_ne_dash _ h6),
    pyIntNd_quad c1 c2 c3 c4 h1 h2 h3 h4, pyIntNd_pair_newline c5 c6 h5 h6]

theorem validate_of_not_shape (s : String) (hre : regexMonthOk s.data = false) :
    (validate_month_string s).1 = false := by
  unfold validate_month_string
  by_cases hnil : s.data = []
  · rw [if_pos hnil]
  · rw [if_neg hnil, if_neg (by simp [hre])]

/-- The month-token grammar the program actually accepts: four Unicode
decimal digits, a dash, two Unicode decimal digits, optionally followed by a
single trailing newline (Python's `$`), with month value 01-12 and year
value 1900-2100. -/
def monthTokenSpecU (s : String) : Prop :=
  ∃ c1 c2 c3 c4 c5 c6,
    (s.data = [c1, c2, c3, c4, '-', c5, c6] ∨
     s.data = [c1, c2, c3, c4, '-', c5, c6, '\n']) ∧
    (isNdDigit c1 ∧ isNdDigit c2 ∧ isNdDigit c3 ∧ isNdDigit c4 ∧
      isNdDigit c5 ∧ isNdDigit c6) ∧
    1 ≤ 10 * ndVal c5 + ndVal c6 ∧ 10 * ndVal c5 + ndVal c6 ≤ 12 ∧
    1900 ≤ 1000 * ndVal c1 + 100 * ndVal c2 + 10 * ndVal c3 + ndVal c4 ∧
    1000 * ndVal c1 + 100 * ndVal c2 + 10 * ndVal c3 + ndVal c4 ≤ 2100

/-- C9 counterexample: the real regex machinery is wider than the literal
`YYYY-MM` shape — `$` also matches just before a trailing newline and `\d`
matches any Unicode decimal digit — so `validate_month_string` accepts
`"2024-02\n"` and the Arabic-Indic `"٢٠٢٤-٠٢"`, neither of which has the
literal ASCII `YYYY-MM` form the claim asserts to be exactly accepted. -/
theorem C9_counterexample :
    (validate_month_string "2024-02\n").1 = true ∧
    (validate_month_string "٢٠٢٤-٠٢").1 = true ∧
    ¬ monthTokenSpec "2024-02\n" ∧
    ¬ monthTokenSpec "٢٠٢٤-٠٢" := by
  refine ⟨by decide, by decide, ?_, ?_⟩
  · rintro ⟨c1, c2, c3, c4, c5, c6, heq, -⟩
    rw [show ("2024-02\n").data = ['2', '0', '2', '4', '-', '0', '2', '\n']
      from rfl] at heq
    simp at heq
  · rintro ⟨c1, c2, c3, c4, c5, c6, heq, hdig, -⟩
    rw [show ("٢٠٢٤-٠٢").data = ['٢', '٠', '٢', '٤', '-', '٠', '٢'] from rfl] at heq
    simp only [List.cons.injEq, and_true] at heq
    obtain ⟨e1, -⟩ := heq
    subst e1
    exact absurd hdig.1 (by decide)

/-- C9 (amended): `validate_month_string` accepts exactly the strings made
of four Unicode decimal digits, a dash, and two Unicode decimal digits —
optionally followed by one trailing newline — whose month value is between
01 and 12 and whose year value is between 1900 and 2100, and rejects every
other input; in particular `"2024-13"` fails (month out of range) and
`"2024-02"` succeeds. -/
theorem C9_validate_month_string_amended :
    (∀ s : String, (validate_month_string s).1 = true ↔ monthTokenSpecU s) ∧
    (validate_month_string "2024-13").1 = false ∧
    (validate_month_string "2024-02").1 = true := by
  refine ⟨fun s => ?_, by decide, by decide⟩
  constructor
  · intro h
    by_cases hre : regexMonthOk s.data = true
    · obtain ⟨c1, c2, c3, c4, c5, c6, hshape, h1, h2, h3, h4, h5, h6⟩ :=
        regexMonthOk_shape s.data hre
      rcases hshape with hd | hd
      · rw [validate_shape7_eval s c1 c2 c3 c4 c5 c6 hd h1 h2 h3 h4 h5 h6] at h
        split at h
        · split at h
          · rename_i hmo hyr
            exact ⟨c1, c2, c3, c4, c5, c6, Or.inl hd, ⟨h1, h2, h3, h4, h5, h6⟩,
              hmo.1, hmo.2, hyr.1, hyr.2⟩
          · simp at h
        · simp at h
      · rw [validate_shape8_eval s c1 c2 c3 c4 c5 c6 hd h1 h2 h3 h4 h5 h6] at h
        split at h
        · split at h
          · rename_i hmo hyr
            exact ⟨c1, c2, c3, c4, c5, c6, Or.inr hd, ⟨h1, h2, h3, h4, h5, h6⟩,
              hmo.1, hmo.2, hyr.1, hyr.2⟩
          · simp at h
        · simp at h
    · rw [validate_of_not_shape s (by simpa using hre)] at h
      exact absurd h (by simp)
  · intro hspec
    obtain ⟨c1, c2, c3, c4, c5, c6, hshape, ⟨h1, h2, h3, h4, h5, h6⟩,
      hmo1, hmo2, hyr1, hyr2⟩ := hspec
    rcases hshape with hd | hd
    · rw [validate_shape7_eval s c1 c2 c3 c4 c5 c6 hd h1 h2 h3 h4 h5 h6]
      rw [if_pos ⟨hmo1, hmo2⟩, if_pos ⟨hyr1, hyr2⟩]
    · rw [validate_shape8_eval s c1 c2 c3 c4 c5 c6 hd h1 h2 h3 h4 h5 h6]
      rw [if_pos ⟨hmo1, hmo2⟩, if_pos ⟨hyr1, hyr2⟩]

/-! ## Claim C8 -/

/-- C8: `validate_amount` returns a structured `(is_valid, amount, message)`
triple (it is a total function — no exception escapes): `"0"` and `"-5"`
are rejected with the strict-positivity message, and `"$1,234.50"` parses to
1234.50 after the currency symbol and thousands separator are stripped. -/
theorem C8_validate_amount_examples :
    validate_amount "0" = (false, none, some "Amount must be greater than zero") ∧
    validate_amount "-5" = (false, none, some "Amount must be greater than zero") ∧
    validate_amount "$1,234.50" = (true, some (2469 / 2 : ℚ), none) := by
  refine ⟨?_, ?_, ?_⟩ <;>
    simp +decide [validate_amount, parseDecimal, pyStrip, isAsciiDigit, digVal] <;>
    norm_num

/-! ## Claim C5 -/

/-- C5: `delete(id)` on both the transaction and the budget repository
removes the (first) row with the given primary key and returns `true` when
such a row exists; when none exists it returns `false` — a normal result,
not an error — and leaves the store unchanged. -/
theorem C5_delete_semantics :
    (∀ (store : List Txn) (i : Nat),
      ((¬ ∃ t ∈ store, t.id = i) →
        TransactionRepository.delete store i = (store, false)) ∧
      ((∃ t ∈ store, t.id = i) →
        (TransactionRepository.delete store i).2 = true ∧
        (TransactionRepository.delete store i).1 =
          store.eraseP (fun t => t.id == i) ∧
        (TransactionRepository.delete store i).1.length + 1 = store.length)) ∧
    (∀ (store : List Budget) (i : Nat),
      ((¬ ∃ b ∈ store, b.id = i) →
        BudgetRepository.delete store i = (store, false)) ∧
      ((∃ b ∈ store, b.id = i) →
        (BudgetRepository.delete store i).2 = true ∧
        (BudgetRepository.delete store i).1 =
          store.eraseP (fun b => b.id == i) ∧
        (BudgetRepository.delete store i).1.length + 1 = store.length)) := by
  constructor
  · intro store i
    unfold TransactionRepository.delete
    cases hfind : store.find? (fun t => t.id == i) with
    | none =>
      rw [List.find?_eq_none] at hfind
      simp only [beq_iff_eq] at hfind
      constructor
      · intro _
        rfl
      · intro ⟨t, ht, hid⟩
        exact absurd hid (hfind t ht)
    | some t =>
      have hmem := List.mem_of_find?_eq_some hfind
      have hp := List.find?_some hfind
      simp only [beq_iff_eq] at hp
      constructor
      · intro hno
        exact absurd ⟨t, hmem, hp⟩ hno
      · intro _
        refine ⟨rfl, rfl, ?_⟩
        have hlen : (store.eraseP (fun t => t.id == i)).length = store.length - 1 :=
          List.length_eraseP_of_mem hmem (by simp [hp])
        have hpos : 1 ≤ store.length := List.length_pos.mpr (by
          intro hnil
          rw [hnil] at hmem
          exact absurd hmem (List.not_mem_nil t))
        show (store.eraseP (fun t => t.id == i)).length + 1 = store.length
        omega
  · intro store i
    unfold BudgetRepository.delete
    cases hfind : store.find? (fun b => b.id == i) with
    | none =>
      rw [List.find?_eq_none] at hfind
      simp only [beq_iff_eq] at hfind
      constructor
      · intro _
        rfl
      · intro ⟨b, hb, hid⟩
        exact absurd hid (hfind b hb)
    | some b =>
      have hmem := List.mem_of_find?_eq_some hfind
      have hp := List.find?_some hfind
      simp only [beq_iff_eq] at hp
      constructor
      · intro hno
        exact absurd ⟨b, hmem, hp⟩ hno
      · intro _
        refine ⟨rfl, rfl, ?_⟩
        have hlen : (store.eraseP (fun b => b.id == i)).length = store.length - 1 :=
          List.length_eraseP_of_mem hmem (by simp [hp])
        have hpos : 1 ≤ store.length := List.length_pos.mpr (by
          intro hnil
          rw [hnil] at hmem
          exact absurd hmem (List.not_mem_nil b))
        show (store.eraseP (fun b => b.id == i)).length + 1 = store.length
        omega

/-- C5 witness: deleting a missing id from an empty store returns
`(unchanged, false)` for both repositories, and deleting a present id
removes it and returns `true`. -/
theorem C5_witness :
    TransactionRepository.delete [] 5 = ([], false) ∧
    BudgetRepository.delete [⟨3, 1, "2024-01", 10⟩] 3 =
      ([], true) := by
  constructor
  · exact (C5_delete_semantics.1 [] 5).1 (by simp)
  · have h := (C5_delete_semantics.2 [⟨3, 1, "2024-01", 10⟩] 3).2
      ⟨⟨3, 1, "2024-01", 10⟩, by simp, rfl⟩
    obtain ⟨h2, h1, _⟩ := h
    have : BudgetRepository.delete [⟨3, 1, "2024-01", 10⟩] 3 =
        ((BudgetRepository.delete [⟨3, 1, "2024-01", 10⟩] 3).1,
         (BudgetRepository.delete [⟨3, 1, "2024-01", 10⟩] 3).2) := rfl
    rw [this, h1, h2]
    simp [List.eraseP]

/-! ## Claim C4 -/

theorem pyOrZero_sqlSum (l : List ℚ) : pyOrZero (sqlSum l) = l.sum := by
  unfold pyOrZero sqlSum
  cases l with
  | nil => simp
  | cons a t =>
    simp only [List.isEmpty_cons, if_false, Bool.false_eq_true]
    split
    · rename_i h
      exact h.symm
    · rfl

/-- C4: `get_totals_by_type` returns the pair of per-type amount sums over
the transactions in the optional date window (an absent bound constrains
nothing), and each component is the number zero — not an absent value —
when no transaction of that type falls in the window. -/
theorem C4_get_totals_by_type (store : List Txn) (s e : Option DateTime) :
    (TransactionRepository.get_totals_by_type store s e =
      (((store.filter (fun t => t.type == TxnType.income && windowB s e t)).map
          Txn.amount).sum,
       ((store.filter (fun t => t.type == TxnType.expense && windowB s e t)).map
          Txn.amount).sum)) ∧
    (∀ t : Txn, windowB s e t = true ↔
      ((∀ sd, s = some sd → dtLeP sd t.date) ∧ (∀ ed, e = some ed → dtLeP t.date ed))) ∧
    ((store.filter (fun t => t.type == TxnType.income && windowB s e t)) = [] →
      (TransactionRepository.get_totals_by_type store s e).1 = 0) ∧
    ((store.filter (fun t => t.type == TxnType.expense && windowB s e t)) = [] →
      (TransactionRepository.get_totals_by_type store s e).2 = 0) := by
  have hmain : TransactionRepository.get_totals_by_type store s e =
      (((store.filter (fun t => t.type == TxnType.income && windowB s e t)).map
          Txn.amount).sum,
       ((store.filter (fun t => t.type == TxnType.expense && windowB s e t)).map
          Txn.amount).sum) := by
    simp only [TransactionRepository.get_totals_by_type]
    rw [List.filter_filter, List.filter_filter, pyOrZero_sqlSum, pyOrZero_sqlSum]
  refine ⟨hmain, ?_, ?_, ?_⟩
  · intro t
    unfold windowB
    cases s with
    | none =>
      cases e with
      | none => simp [dtLe]
      | some ed => simp [dtLe]
    | some sd =>
      cases e with
      | none => simp [dtLe]
      | some ed => simp [dtLe, and_comm]
  · intro hnil
    rw [hmain]
    simp [hnil]
  · intro hnil
    rw [hmain]
    simp [hnil]

/-- C4 witness: on the empty store with no bounds the income/expense pair is
`(0, 0)`, through the theorem's zero-default clauses. -/
theorem C4_witness :
    (TransactionRepository.get_totals_by_type [] none none).1 = 0 ∧
    (TransactionRepository.get_totals_by_type [] none none).2 = 0 ∧
    windowB none none ⟨1, 1, 1, mkDate 2024 1 1, 5, TxnType.income, none⟩ = true := by
  refine ⟨(C4_get_totals_by_type [] none none).2.2.1 rfl,
    (C4_get_totals_by_type [] none none).2.2.2 rfl, ?_⟩
  exact ((C4_get_totals_by_type [] none none).2.1 _).mpr
    ⟨(fun sd h => nomatch h), (fun ed h => nomatch h)⟩

/-! ## Claim C6 -/

/-- The toplevel sort used by `update_data`: Python's stable
`sorted(..., key=amount, reverse=True)`. -/
def sortByAmountDesc (data : List (String × ℚ)) : List (String × ℚ) :=
  data.mergeSort (fun a b => decide (b.2 ≤ a.2))

theorem sortByAmountDesc_perm (data : List (String × ℚ)) :
    (sortByAmountDesc data).Perm data :=
  List.mergeSort_perm data _

theorem sortByAmountDesc_sorted (data : List (String × ℚ)) :
    (sortByAmountDesc data).Pairwise (fun a b => b.2 ≤ a.2) := by
  have h := @List.sorted_mergeSort (String × ℚ)
    (fun a b => decide (b.2 ≤ a.2))
    (fun a b c hab hbc => by
      simp only [decide_eq_true_eq] at *
      exact le_trans hbc hab)
    (fun a b => by
      simp only [Bool.or_eq_true, decide_eq_true_eq]
      exact le_total b.2 a.2)
    data
  exact h.imp (by
    intro a b hab
    simpa using hab)

/-- C6: the chart consumer re-buckets a category-totals result with more
than 8 categories into the 7 largest totals in descending order plus an
`"Other"` bucket holding exactly the remaining mass (total minus the kept
top 7), included only when that remainder is positive; a result with 8 or
fewer categories is only sorted, never re-bucketed. -/
theorem C6_rebucket_top8 (data : List (String × ℚ)) :
    ((sortByAmountDesc data).Perm data ∧
      (sortByAmountDesc data).Pairwise (fun a b => b.2 ≤ a.2)) ∧
    (data.length ≤ 8 → CategoryBarChart.rebucket data = sortByAmountDesc data) ∧
    (8 < data.length →
      CategoryBarChart.rebucket data =
        (sortByAmountDesc data).take 7 ++
          (if 0 < (((sortByAmountDesc data).drop 7).map Prod.snd).sum
           then [("Other", (((sortByAmountDesc data).drop 7).map Prod.snd).sum)]
           else []) ∧
      (((sortByAmountDesc data).drop 7).map Prod.snd).sum =
        (data.map Prod.snd).sum - (((sortByAmountDesc data).take 7).map Prod.snd).sum ∧
      ∀ x ∈ (sortByAmountDesc data).take 7, ∀ z ∈ (sortByAmountDesc data).drop 7,
        z.2 ≤ x.2) := by
  have hperm := sortByAmountDesc_perm data
  have hsorted := sortByAmountDesc_sorted data
  have hlen : (sortByAmountDesc data).length = data.length := hperm.length_eq
  refine ⟨⟨hperm, hsorted⟩, ?_, ?_⟩
  · intro hle
    unfold CategoryBarChart.rebucket
    rw [if_neg (by
      show ¬ 8 < (data.mergeSort (fun a b => decide (b.2 ≤ a.2))).length
      unfold sortByAmountDesc at hlen
      omega)]
    rfl
  · intro hgt
    refine ⟨?_, ?_, ?_⟩
    · unfold CategoryBarChart.rebucket
      rw [if_pos (by
        show 8 < (data.mergeSort (fun a b => decide (b.2 ≤ a.2))).length
        unfold sortByAmountDesc at hlen
        omega)]
      unfold sortByAmountDesc
      split
      · rw [if_pos (by assumption)]
      · rw [if_neg (by assumption), List.append_nil]
    · have hsum : ((sortByAmountDesc data).map Prod.snd).sum =
          (data.map Prod.snd).sum := (hperm.map Prod.snd).sum_eq
      have hsplit := List.sum_take_add_sum_drop ((sortByAmountDesc data).map Prod.snd) 7
      rw [List.map_take, List.map_drop]
      linarith [hsplit, hsum]
    · intro x hx z hz
      have h := (List.pairwise_append.mp (by
        rw [List.take_append_drop 7 (sortByAmountDesc data)]
        exact hsorted)).2.2
      exact h x hx z hz

/-- C6 witness: a two-element, already-descending result is returned as is
(no `"Other"` bucket) via the `length ≤ 8` clause of the theorem. -/
theorem C6_witness :
    CategoryBarChart.rebucket [("a", (5 : ℚ)), ("b", 3)] = [("a", 5), ("b", 3)] := by
  have h := (C6_rebucket_top8 [("a", (5 : ℚ)), ("b", 3)]).2.1 (by norm_num)
  rw [h]
  unfold sortByAmountDesc
  rw [List.mergeSort_of_sorted (by decide)]

/-! ## Claim C7: the `LIKE`-matcher theory -/

theorem lowerChar_eq_pct (c : Char) : lowerChar c = '%' ↔ c = '%' := by
  unfold lowerChar
  split <;> simp_all

theorem lowerChar_eq_us (c : Char) : lowerChar c = '_' ↔ c = '_' := by
  unfold lowerChar
  split <;> simp_all

theorem lowerList_no_wildcard {l : List Char}
    (h : ∀ c ∈ l, c ≠ '%' ∧ c ≠ '_') :
    ∀ c ∈ lowerList l, c ≠ '%' ∧ c ≠ '_' := by
  intro c hc
  unfold lowerList at hc
  obtain ⟨d, hd, hdc⟩ := List.mem_map.mp hc
  subst hdc
  exact ⟨fun hp => (h d hd).1 ((lowerChar_eq_pct d).mp hp),
    fun hu => (h d hd).2 ((lowerChar_eq_us d).mp hu)⟩

/-- A wildcard-free pattern matches exactly itself. -/
theorem likeMatch_wildcard_free :
    ∀ (p : List Char), (∀ c ∈ p, c ≠ '%' ∧ c ≠ '_') →
    ∀ s, likeMatch p s = true ↔ p = s := by
  intro p
  induction p with
  | nil =>
    intro _ s
    cases s <;> simp [likeMatch]
  | cons c p ih =>
    intro hp s
    have hc := hp c (by simp)
    simp only [likeMatch]
    rw [if_neg hc.1]
    cases s with
    | nil => simp
    | cons d s' =>
      show ((if c = '_' then true else decide (c = d)) && likeMatch p s') = true ↔
        c :: p = d :: s'
      rw [if_neg hc.2]
      simp only [Bool.and_eq_true, decide_eq_true_eq,
        ih (fun x hx => hp x (by simp [hx])) s', List.cons.injEq]

/-- A pattern headed by `%` matches a string iff its tail matches some
suffix. -/
theorem likeMatch_pct (p s : List Char) :
    likeMatch ('%' :: p) s = true ↔ ∃ s2, s2 <:+ s ∧ likeMatch p s2 = true := by
  simp [likeMatch, List.mem_tails]

/-- A wildcard-free pattern followed by a trailing `%` matches exactly the
strings it prefixes. -/
theorem likeMatch_append_pct :
    ∀ (t : List Char), (∀ c ∈ t, c ≠ '%' ∧ c ≠ '_') →
    ∀ s, likeMatch (t ++ ['%']) s = true ↔ t <+: s := by
  intro t
  induction t with
  | nil =>
    intro _ s
    simp only [List.nil_append, List.nil_prefix, iff_true]
    rw [show (['%'] : List Char) = '%' :: ([] : List Char) from rfl, likeMatch_pct]
    exact ⟨[], List.nil_suffix, rfl⟩
  | cons c t ih =>
    intro hwf s
    have hc := hwf c (by simp)
    rw [List.cons_append]
    simp only [likeMatch]
    rw [if_neg hc.1]
    cases s with
    | nil => simp
    | cons d s' =>
      show ((if c = '_' then true else decide (c = d)) && likeMatch (t ++ ['%']) s') = true ↔
        c :: t <+: d :: s'
      rw [if_neg hc.2]
      simp only [Bool.and_eq_true, decide_eq_true_eq,
        ih (fun x hx => hwf x (by simp [hx])) s', List.cons_prefix_cons]

/-- The full `%term%` pattern (for a wildcard-free term) matches exactly the
strings containing the term as a substring. -/
theorem likeMatch_pct_wrap (t s : List Char)
    (ht : ∀ c ∈ t, c ≠ '%' ∧ c ≠ '_') :
    likeMatch ('%' :: (t ++ ['%'])) s = true ↔ t <:+: s := by
  rw [likeMatch_pct, List.infix_iff_prefix_suffix]
  constructor
  · intro ⟨s2, hsuf, hm⟩
    exact ⟨s2, (likeMatch_append_pct t ht s2).mp hm, hsuf⟩
  · intro ⟨s2, hpre, hsuf⟩
    exact ⟨s2, hsuf, (likeMatch_append_pct t ht s2).mpr hpre⟩

/-- Case-insensitive (ASCII-folded) substring containment — the
specification's notion of a note matching a search term. -/
def containsCI (term note : String) : Prop :=
  lowerList term.data <:+: lowerList note.data

theorem noteMatches_iff (term note : String)
    (hterm : ∀ c ∈ term.data, c ≠ '%' ∧ c ≠ '_') :
    noteMatches (some note) term = true ↔ containsCI term note := by
  unfold noteMatches containsCI
  have hpct : lowerChar '%' = '%' := by decide
  have hsplit : lowerList ('%' :: term.data ++ ['%']) =
      '%' :: (lowerList term.data ++ ['%']) := by
    simp [lowerList, hpct]
  rw [hsplit, likeMatch_pct_wrap _ _ (lowerList_no_wildcard hterm)]

theorem dtLeP_trans (a b c : DateTime) (h1 : dtLeP a b) (h2 : dtLeP b c) : dtLeP a c := by
  unfold dtLeP at *
  omega

theorem dtLeP_total (a b : DateTime) : dtLeP a b ∨ dtLeP b a := by
  unfold dtLeP
  omega

/-- C7 counterexample: the search term is spliced into the `LIKE` pattern
unescaped, so a term containing the `LIKE` wildcard `_` matches notes that
do not contain it as a substring: searching for `"x_z"` returns the
transaction whose note is `"xyz"`. -/
theorem C7_counterexample :
    TransactionRepository.search
      [⟨1, 1, 1, mkDate 2024 1 1, 5, TxnType.expense, some "xyz"⟩] "x_z" =
      [⟨1, 1, 1, mkDate 2024 1 1, 5, TxnType.expense, some "xyz"⟩] ∧
    ¬ containsCI "x_z" "xyz" := by
  constructor
  · unfold TransactionRepository.search
    have hfil : List.filter (fun t => noteMatches t.note "x_z")
        [(⟨1, 1, 1, mkDate 2024 1 1, 5, TxnType.expense, some "xyz"⟩ : Txn)] =
        [⟨1, 1, 1, mkDate 2024 1 1, 5, TxnType.expense, some "xyz"⟩] := by decide
    rw [hfil]
    exact List.mergeSort_singleton _
  · unfold containsCI
    decide

/-- C7 (amended): for a search term free of the SQL `LIKE` wildcards `%`
and `_`, `search` returns exactly the transactions whose note contains the
term as a case-insensitive substring, ordered by date descending, and a
transaction with an absent note never matches.  (As stated over arbitrary
terms the claim fails — see the counterexample — because wildcards in the
term are interpreted by `LIKE`.) -/
theorem C7_search_substring (store : List Txn) (term : String)
    (hterm : ∀ c ∈ term.data, c ≠ '%' ∧ c ≠ '_') :
    (∀ t : Txn, t ∈ TransactionRepository.search store term ↔
      t ∈ store ∧ ∃ n, t.note = some n ∧ containsCI term n) ∧
    (TransactionRepository.search store term).Pairwise
      (fun a b => dtLeP b.date a.date) ∧
    (∀ t ∈ store, t.note = none → t ∉ TransactionRepository.search store term) := by
  have hmem : ∀ t : Txn, t ∈ TransactionRepository.search store term ↔
      t ∈ store ∧ ∃ n, t.note = some n ∧ containsCI term n := by
    intro t
    unfold TransactionRepository.search
    rw [(List.mergeSort_perm (store.filter (fun t => noteMatches t.note term))
      (fun a b => dtLe b.date a.date)).mem_iff]
    rw [List.mem_filter]
    constructor
    · intro ⟨hs, hmatch⟩
      refine ⟨hs, ?_⟩
      cases hnote : t.note with
      | none =>
        rw [hnote] at hmatch
        simp [noteMatches] at hmatch
      | some n =>
        rw [hnote] at hmatch
        exact ⟨n, rfl, (noteMatches_iff term n hterm).mp hmatch⟩
    · intro ⟨hs, n, hnote, hci⟩
      refine ⟨hs, ?_⟩
      rw [hnote]
      exact (noteMatches_iff term n hterm).mpr hci
  refine ⟨hmem, ?_, ?_⟩
  · unfold TransactionRepository.search
    have h := @List.sorted_mergeSort Txn
      (fun a b => dtLe b.date a.date)
      (fun a b c hab hbc => by
        simp only [dtLe, decide_eq_true_eq] at *
        exact dtLeP_trans c.date b.date a.date hbc hab)
      (fun a b => by
        simp only [dtLe, Bool.or_eq_true, decide_eq_true_eq]
        exact (dtLeP_total b.date a.date))
      (store.filter (fun t => noteMatches t.note term))
    exact h.imp (by
      intro a b hab
      simpa [dtLe] using hab)
  · intro t _ hnone hin
    obtain ⟨_, n, hnote, _⟩ := (hmem t).mp hin
    rw [hnone] at hnote
    exact Option.noConfusion hnote

/-- C7 witness: searching `"lunch"` (no wildcards) finds the transaction
noted `"Lunch at cafe"` case-insensitively. -/
theorem C7_witness :
    (⟨1, 1, 1, mkDate 2024 1 1, 5, TxnType.expense, some "Lunch at cafe"⟩ : Txn) ∈
      TransactionRepository.search
        [⟨1, 1, 1, mkDate 2024 1 1, 5, TxnType.expense, some "Lunch at cafe"⟩]
        "lunch" := by
  have h := (C7_search_substring
    [⟨1, 1, 1, mkDate 2024 1 1, 5, TxnType.expense, some "Lunch at cafe"⟩]
    "lunch" (by decide)).1
    ⟨1, 1, 1, mkDate 2024 1 1, 5, TxnType.expense, some "Lunch at cafe"⟩
  exact h.mpr ⟨by simp, "Lunch at cafe", rfl, by unfold containsCI; decide⟩

/-! ## Claim C2 -/

/-- The data-model invariant of §3 of the specification for a transaction:
the date is a valid calendar date with the time normalized to midnight. -/
def txnWF (t : Txn) : Prop :=
  1 ≤ t.date.year ∧ 1 ≤ t.date.month ∧ t.date.month ≤ 12 ∧
  1 ≤ t.date.day ∧ t.date.day ≤ daysInMonth t.date.year t.date.month ∧
  t.date.hour = 0 ∧ t.date.minute = 0 ∧ t.date.second = 0

/-- The specification's per-day net: income sum minus expense sum over the
whole store's transactions dated on that calendar day. -/
def dayNet (store : List Txn) (y mo d : Nat) : ℚ :=
  ((store.filter (fun t => (t.type == TxnType.income) &&
      (t.date.year == y && t.date.month == mo && t.date.day == d))).map Txn.amount).sum -
  ((store.filter (fun t => (t.type == TxnType.expense) &&
      (t.date.year == y && t.date.month == mo && t.date.day == d))).map Txn.amount).sum

/-- A filtered amount sum over a fetched (range-restricted, date-sorted)
result equals the same filtered sum over the raw store, as long as every
store row satisfying the filter lies in the range. -/
theorem sum_filter_get_by_date_range (store : List Txn) (s e : DateTime)
    (p : Txn → Bool)
    (hsub : ∀ t ∈ store, p t = true → (dtLe s t.date && dtLe t.date e) = true) :
    (((TransactionRepository.get_by_date_range store s e).filter p).map Txn.amount).sum =
    ((store.filter p).map Txn.amount).sum := by
  unfold TransactionRepository.get_by_date_range
  have hperm := (List.mergeSort_perm
    (store.filter (fun t => dtLe s t.date && dtLe t.date e))
    (fun a b => dtLe b.date a.date)).filter p
  rw [((hperm.map Txn.amount).sum_eq : _)]
  rw [List.filter_filter]
  congr 1
  apply congrArg
  apply List.filter_congr
  intro t ht
  cases hp : p t with
  | false => simp
  | true => simp [hsub t ht hp]

/-- C2: for a valid month token and a store satisfying the data-model
invariant (valid dates, midnight times), the daily series has exactly
`daysInMonth` entries, the `i`-th entry being calendar day `i+1` of the
month at midnight mapped to that day's income-minus-expense net over the
store — zero for days with no transactions, since both sums are then
empty. -/
theorem C2_daily_net_series (M : String) (y mo : Nat) (store : List Txn)
    (out : List (DateTime × ℚ))
    (hp : parseMonth M = some (y, mo)) (hy : 1 ≤ y) (hm1 : 1 ≤ mo) (hm2 : mo ≤ 12)
    (hwf : ∀ t ∈ store, txnWF t)
    (hout : MonthlyTrendChart.get_daily_data store M = some out) :
    out.length = daysInMonth y mo ∧
    ∀ i (hi : i < out.length),
      out.get ⟨i, hi⟩ = (mkDate y mo (i + 1), dayNet store y mo (i + 1)) := by
  simp only [MonthlyTrendChart.get_daily_data, hp] at hout
  rw [monthRange_eq y mo hy hm1 hm2] at hout
  simp only [mkDate, Option.some.injEq] at hout
  have hn : toOrdinal y mo (daysInMonth y mo) + 1 - toOrdinal y mo 1 = daysInMonth y mo := by
    have := daysInMonth_pos y mo
    unfold toOrdinal
    omega
  rw [hn] at hout
  subst hout
  constructor
  · rw [List.length_map, List.length_range]
  · intro i hi
    rw [List.length_map, List.length_range] at hi
    rw [List.get_map]
    have hrange : (List.range (daysInMonth y mo)).get ⟨i, by
        rw [List.length_range]; exact hi⟩ = i := by
      simp
    rw [hrange]
    have hord : toOrdinal y mo 1 + i = toOrdinal y mo (i + 1) := by
      unfold toOrdinal
      omega
    rw [hord, fromOrdinal_toOrdinal y mo (i + 1) hy hm1 hm2 (by omega) (by omega)]
    have hsub : ∀ (tb : Txn → Bool), ∀ t ∈ store,
        (tb t && (t.date.year == y && t.date.month == mo && t.date.day == i + 1)) = true →
        (dtLe (DateTime.mk y mo 1 0 0 0) t.date &&
         dtLe t.date (DateTime.mk y mo (daysInMonth y mo) 0 0 0)) = true := by
      intro tb t ht hcond
      simp only [Bool.and_eq_true, beq_iff_eq] at hcond
      obtain ⟨-, ⟨hyr, hmo⟩, hd⟩ := hcond
      have hw := hwf t ht
      unfold txnWF at hw
      rw [hyr, hmo] at hw
      simp only [dtLe, Bool.and_eq_true, decide_eq_true_eq]
      unfold dtLeP
      constructor
      · simp only []
        omega
      · simp only []
        omega
    simp only [mkDate, Prod.mk.injEq]
    refine ⟨trivial, ?_⟩
    unfold dayNet
    rw [List.filter_filter, List.filter_filter]
    rw [sum_filter_get_by_date_range store _ _ _ (hsub (fun t => t.type == TxnType.income)),
      sum_filter_get_by_date_range store _ _ _ (hsub (fun t => t.type == TxnType.expense))]

/-- The expected daily series of February 2023 over an empty store:
28 days, each mapped to zero. -/
def febZeroSeries : List (DateTime × ℚ) :=
  (List.range 28).map (fun i => (mkDate 2023 2 (i + 1), 0))

/-- C2 witness: over the empty store, February 2023 (a non-leap year)
yields exactly 28 entries, all zero. -/
theorem C2_witness :
    MonthlyTrendChart.get_daily_data [] "2023-02" = some febZeroSeries ∧
    febZeroSeries.length = daysInMonth 2023 2 ∧
    febZeroSeries.get ⟨27, by decide⟩ = (mkDate 2023 2 28, dayNet [] 2023 2 28) := by
  have hout : MonthlyTrendChart.get_daily_data [] "2023-02" = some febZeroSeries := by
    have hpm : parseMonth "2023-02" = some (2023, 2) := by decide
    have hmr : monthRange 2023 2 = (mkDate 2023 2 1, mkDate 2023 2 28) := by decide
    simp only [MonthlyTrendChart.get_daily_data, hpm, hmr, mkDate,
      TransactionRepository.get_by_date_range, List.filter_nil, List.mergeSort_nil,
      List.map_nil, List.sum_nil, sub_zero, febZeroSeries]
    decide
  have h := C2_daily_net_series "2023-02" 2023 2 [] febZeroSeries (by decide)
    (by decide) (by decide) (by decide) (by simp) hout
  exact ⟨hout, h.1, h.2 27 (by decide)⟩

/-! ## Claim C3 -/

/-- The specification's category total for a month: the sum of the amounts
of the category's expense transactions dated in that month, over the whole
store. -/
def catMonthTotal (store : List Txn) (y mo : Nat) (c : Category) : ℚ :=
  ((store.filter (fun t =>
    (t.categoryId == c.id && t.type == TxnType.expense) &&
    (t.date.year == y && t.date.month == mo))).map Txn.amount).sum

/-- Unconditional form of the fetched-sum transfer: filtering a fetched
range result is filtering the store by the conjunction with the range
test. -/
theorem sum_filter_fetched_eq (store : List Txn) (s e : DateTime) (p : Txn → Bool) :
    (((TransactionRepository.get_by_date_range store s e).filter p).map Txn.amount).sum =
    ((store.filter (fun t =>
      p t && (dtLe s t.date && dtLe t.date e))).map Txn.amount).sum := by
  unfold TransactionRepository.get_by_date_range
  have hperm := (List.mergeSort_perm
    (store.filter (fun t => dtLe s t.date && dtLe t.date e))
    (fun a b => dtLe b.date a.date)).filter p
  rw [((hperm.map Txn.amount).sum_eq : _), List.filter_filter]

/-- For a well-formed transaction (valid date, midnight time), lying in the
closed range from the month's first to its last midnight is the same as
bearing that year and month. -/
theorem range_eq_month (y mo : Nat) (t : Txn) (hw : txnWF t) :
    (dtLe (mkDate y mo 1) t.date && dtLe t.date (mkDate y mo (daysInMonth y mo))) =
    (t.date.year == y && t.date.month == mo) := by
  have hbool : ∀ (a b : Bool), ((a = true) ↔ (b = true)) → a = b := by decide
  apply hbool
  unfold txnWF at hw
  simp only [dtLe, mkDate, Bool.and_eq_true, decide_eq_true_eq, beq_iff_eq]
  unfold dtLeP
  simp only []
  constructor
  · intro ⟨h1, h2⟩
    constructor
    · omega
    · omega
  · intro ⟨hyr, hmo⟩
    rw [hyr, hmo] at hw
    constructor
    · omega
    · omega

theorem categoryTotalIn_eq_catMonthTotal (store : List Txn) (y mo : Nat)
    (c : Category) (hwf : ∀ t ∈ store, txnWF t) :
    categoryTotalIn
      (TransactionRepository.get_by_date_range store
        (mkDate y mo 1) (mkDate y mo (daysInMonth y mo))) c =
    catMonthTotal store y mo c := by
  unfold categoryTotalIn catMonthTotal
  rw [sum_filter_fetched_eq]
  congr 1
  apply congrArg
  apply List.filter_congr
  intro t ht
  rw [range_eq_month y mo t (hwf t ht)]

/-- The association list built by the category fold for a totals function
`T`: one entry per category with a positive total, in list order. -/
def builtList (T : Category → ℚ) (cs : List Category) : List (String × ℚ) :=
  cs.filterMap (fun c => if 0 < T c then some (c.name, T c) else none)

theorem foldl_dictInsert_eq (T : Category → ℚ) :
    ∀ (cs : List Category) (acc : List (String × ℚ)),
    cs.Pairwise (fun a b => a.name ≠ b.name) →
    (∀ p ∈ acc, ∀ c ∈ cs, p.1 ≠ c.name) →
    cs.foldl (fun acc c => if 0 < T c then dictInsert acc c.name (T c) else acc) acc =
      acc ++ builtList T cs := by
  intro cs
  induction cs with
  | nil =>
    intro acc _ _
    simp [builtList]
  | cons c cs ih =>
    intro acc hpw hdisj
    obtain ⟨hhead, htail⟩ := List.pairwise_cons.mp hpw
    rw [List.foldl_cons]
    by_cases hT : 0 < T c
    · rw [if_pos hT]
      have hnotin : ¬ acc.any (fun p => p.1 == c.name) = true := by
        simp only [List.any_eq_true, beq_iff_eq, not_exists]
        intro p
        intro ⟨hp, hname⟩
        exact hdisj p hp c (by simp) hname
      rw [show dictInsert acc c.name (T c) = acc ++ [(c.name, T c)] from by
        unfold dictInsert
        rw [if_neg hnotin]]
      rw [ih (acc ++ [(c.name, T c)]) htail (by
        intro p hp c' hc'
        rcases List.mem_append.mp hp with hacc | hnew
        · exact hdisj p hacc c' (by simp [hc'])
        · rw [List.mem_singleton.mp hnew]
          exact hhead c' hc')]
      rw [show builtList T (c :: cs) = (c.name, T c) :: builtList T cs from by
        unfold builtList
        rw [List.filterMap_cons]
        simp [hT]]
      rw [List.append_assoc]
      rfl
    · rw [if_neg hT]
      rw [ih acc htail (by
        intro p hp c' hc'
        exact hdisj p hp c' (by simp [hc']))]
      rw [show builtList T (c :: cs) = builtList T cs from by
        unfold builtList
        rw [List.filterMap_cons]
        simp [hT]]

theorem builtList_lookup_none (T : Category → ℚ) :
    ∀ (cs : List Category) (key : String), (∀ c ∈ cs, key ≠ c.name) →
    (builtList T cs).lookup key = none := by
  intro cs
  induction cs with
  | nil =>
    intro key _
    simp [builtList]
  | cons c cs ih =>
    intro key hkey
    unfold builtList
    rw [List.filterMap_cons]
    by_cases hT : 0 < T c
    · simp only [hT, if_pos]
      rw [List.lookup_cons]
      rw [show (key == c.name) = false from by
        simp only [beq_eq_false_iff_ne, ne_eq]
        exact hkey c (by simp)]
      exact ih key (fun c' hc' => hkey c' (by simp [hc']))
    · simp only [hT, if_neg, if_false]
      exact ih key (fun c' hc' => hkey c' (by simp [hc']))

theorem builtList_lookup (T : Category → ℚ) :
    ∀ (cs : List Category), cs.Pairwise (fun a b => a.name ≠ b.name) →
    ∀ c ∈ cs, (builtList T cs).lookup c.name =
      if 0 < T c then some (T c) else none := by
  intro cs
  induction cs with
  | nil =>
    intro _ c hc
    exact absurd hc (List.not_mem_nil c)
  | cons c0 cs ih =>
    intro hpw c hc
    obtain ⟨hhead, htail⟩ := List.pairwise_cons.mp hpw
    rcases List.mem_cons.mp hc with hceq | hctail
    · subst hceq
      unfold builtList
      rw [List.filterMap_cons]
      by_cases hT : 0 < T c
      · simp only [hT, if_pos]
        rw [List.lookup_cons]
        simp [hT]
      · simp only [hT, if_neg, if_false]
        show (builtList T cs).lookup c.name = none
        exact builtList_lookup_none T cs c.name (fun c' hc' => hhead c' hc')
    · have hne : c.name ≠ c0.name := fun h => (hhead c hctail) h.symm
      unfold builtList
      rw [List.filterMap_cons]
      by_cases hT : 0 < T c0
      · simp only [hT, if_pos]
        rw [List.lookup_cons]
        rw [show (c.name == c0.name) = false from by
          simpa [beq_eq_false_iff_ne] using hne]
        exact ih htail c hctail
      · simp only [hT, if_neg, if_false]
        exact ih htail c hctail

theorem builtList_mem (T : Category → ℚ) (cs : List Category)
    (p : String × ℚ) (hp : p ∈ builtList T cs) :
    ∃ c ∈ cs, p.1 = c.name ∧ p.2 = T c ∧ 0 < T c := by
  unfold builtList at hp
  obtain ⟨c, hc, hsome⟩ := List.mem_filterMap.mp hp
  by_cases hT : 0 < T c
  · rw [if_pos hT, Option.some.injEq] at hsome
    exact ⟨c, hc, by rw [← hsome], by rw [← hsome], hT⟩
  · rw [if_neg hT] at hsome
    exact absurd hsome (Option.noConfusion)

/-- C3: for a valid month token, a store satisfying the data-model invariant
(valid midnight dates, strictly positive amounts) and expense categories
with distinct names, the category-totals mapping sends each expense category
to the sum of its expense transactions dated in the month — and omits the
category exactly when that total is zero; every key of the result is the
name of some expense category. -/
theorem C3_category_totals (M : String) (y mo : Nat) (store : List Txn)
    (cats : List Category) (out : List (String × ℚ))
    (hp : parseMonth M = some (y, mo)) (hy : 1 ≤ y) (hm1 : 1 ≤ mo) (hm2 : mo ≤ 12)
    (hwf : ∀ t ∈ store, txnWF t)
    (hpos : ∀ t ∈ store, 0 < t.amount)
    (hnames : (cats.filter (fun c => c.type == TxnType.expense)).Pairwise
      (fun a b => a.name ≠ b.name))
    (hout : CategoryBarChart.get_category_data store cats M = some out) :
    (∀ c ∈ cats, c.type = TxnType.expense →
      out.lookup c.name =
        (if catMonthTotal store y mo c = 0 then none
         else some (catMonthTotal store y mo c))) ∧
    (∀ p ∈ out, ∃ c ∈ cats, c.type = TxnType.expense ∧ p.1 = c.name) := by
  simp only [CategoryBarChart.get_category_data, hp] at hout
  rw [monthRange_eq y mo hy hm1 hm2] at hout
  dsimp only at hout
  rw [Option.some.injEq] at hout
  have hsymm : ∀ {a b : Category}, a.name ≠ b.name → b.name ≠ a.name :=
    fun h => h.symm
  have hperm := List.mergeSort_perm
    (cats.filter (fun c => c.type == TxnType.expense))
    (fun a b => decide (a.name ≤ b.name))
  have hPW : ((cats.filter (fun c => c.type == TxnType.expense)).mergeSort
      (fun a b => decide (a.name ≤ b.name))).Pairwise
      (fun a b => a.name ≠ b.name) :=
    (hperm.pairwise_iff hsymm).mpr hnames
  rw [foldl_dictInsert_eq _ _ [] hPW (by simp)] at hout
  rw [List.nil_append] at hout
  subst hout
  have hT : ∀ c : Category,
      categoryTotalIn (TransactionRepository.get_by_date_range store
        (mkDate y mo 1) (mkDate y mo (daysInMonth y mo))) c =
      catMonthTotal store y mo c :=
    fun c => categoryTotalIn_eq_catMonthTotal store y mo c hwf
  have hnonneg : ∀ c : Category, 0 ≤ catMonthTotal store y mo c := by
    intro c
    unfold catMonthTotal
    apply List.sum_nonneg
    intro x hx
    obtain ⟨t, ht, hamt⟩ := List.mem_map.mp hx
    have := hpos t (List.mem_filter.mp ht).1
    rw [← hamt]
    exact le_of_lt this
  constructor
  · intro c hc htype
    have hmemf : c ∈ cats.filter (fun c => c.type == TxnType.expense) :=
      List.mem_filter.mpr ⟨hc, by simp [htype]⟩
    have hmem := hperm.mem_iff.mpr hmemf
    rw [builtList_lookup _ _ hPW c hmem, hT c]
    by_cases htz : catMonthTotal store y mo c = 0
    · rw [htz]
      simp
    · have hlt : 0 < catMonthTotal store y mo c :=
        lt_of_le_of_ne (hnonneg c) (Ne.symm htz)
      rw [if_pos hlt, if_neg htz]
  · intro p hp'
    obtain ⟨c, hcm, hname, -, -⟩ := builtList_mem _ _ p hp'
    have hmemf := hperm.mem_iff.mp hcm
    obtain ⟨hcc, htb⟩ := List.mem_filter.mp hmemf
    exact ⟨c, hcc, by simpa using htb, hname⟩

/-- C3 witness: over the empty store, the single expense category "Food" has
a zero January-2024 total and is therefore omitted from the result. -/
theorem C3_witness :
    CategoryBarChart.get_category_data [] [⟨1, "Food", TxnType.expense⟩] "2024-01" =
      some [] ∧
    List.lookup "Food" ([] : List (String × ℚ)) = none := by
  have hpm : parseMonth "2024-01" = some (2024, 1) := by decide
  have hout : CategoryBarChart.get_category_data []
      [⟨1, "Food", TxnType.expense⟩] "2024-01" = some [] := by
    simp +decide [CategoryBarChart.get_category_data, hpm, categoryTotalIn,
      TransactionRepository.get_by_date_range, List.mergeSort_nil,
      List.mergeSort_singleton]
  have h := C3_category_totals "2024-01" 2024 1 [] [⟨1, "Food", TxnType.expense⟩]
    [] hpm (by decide) (by decide) (by decide) (by simp) (by simp)
    (by simp) hout
  have h1 := h.1 ⟨1, "Food", TxnType.expense⟩ (by simp) rfl
  refine ⟨hout, ?_⟩
  rw [show ("Food" : String) = (Category.mk 1 "Food" TxnType.expense).name from rfl]
  rw [h1, if_pos (by simp [catMonthTotal])]

/-! ## Claim C10 -/

/-- C10: the end returned by `get_month_date_range` is the last calendar day
of the month at midnight (00:00:00), not the last instant of that day; and
since `get_by_date_range` compares both bounds inclusively on full
datetimes, a transaction dated on the last calendar day of the month is
included in the fetched range exactly when its time-of-day is midnight. -/
theorem C10_end_is_midnight (M : String) (y mo : Nat)
    (hp : parseMonth M = some (y, mo)) (hy : 1 ≤ y) (hm1 : 1 ≤ mo) (hm2 : mo ≤ 12)
    (s e : DateTime) (hgm : get_month_date_range M = some (s, e)) :
    e = mkDate y mo (daysInMonth y mo) ∧
    e.day = daysInMonth y mo ∧ e.hour = 0 ∧ e.minute = 0 ∧ e.second = 0 ∧
    (∀ (store : List Txn) (t : Txn), t ∈ store →
      t.date.year = y → t.date.month = mo → t.date.day = daysInMonth y mo →
      (t ∈ TransactionRepository.get_by_date_range store s e ↔
        t.date.hour = 0 ∧ t.date.minute = 0 ∧ t.date.second = 0)) := by
  unfold get_month_date_range at hgm
  rw [hp] at hgm
  simp only [Option.map] at hgm
  rw [monthRange_eq y mo hy hm1 hm2, Option.some.injEq, Prod.mk.injEq] at hgm
  obtain ⟨hs, he⟩ := hgm
  subst hs
  subst he
  refine ⟨rfl, rfl, rfl, rfl, rfl, ?_⟩
  intro store t ht hyr hmo hday
  unfold TransactionRepository.get_by_date_range
  rw [(List.mergeSort_perm _ _).mem_iff, List.mem_filter]
  simp only [Bool.and_eq_true, dtLe, decide_eq_true_eq]
  unfold dtLeP
  unfold mkDate
  simp only []
  constructor
  · rintro ⟨-, -, hub⟩
    omega
  · rintro ⟨hh, hmi, hsec⟩
    have hL := daysInMonth_pos y mo
    refine ⟨ht, ?_, ?_⟩
    · omega
    · omega

/-- C10 witness: for February 2024 (last day the 29th), a transaction dated
2024-02-29 12:00:00 is excluded from the fetched month range while one dated
2024-02-29 00:00:00 is included. -/
theorem C10_witness :
    (⟨1, 1, 1, ⟨2024, 2, 29, 12, 0, 0⟩, 5, TxnType.expense, none⟩ : Txn) ∉
      TransactionRepository.get_by_date_range
        [⟨1, 1, 1, ⟨2024, 2, 29, 12, 0, 0⟩, 5, TxnType.expense, none⟩]
        (mkDate 2024 2 1) (mkDate 2024 2 29) ∧
    (⟨1, 1, 1, ⟨2024, 2, 29, 0, 0, 0⟩, 5, TxnType.expense, none⟩ : Txn) ∈
      TransactionRepository.get_by_date_range
        [⟨1, 1, 1, ⟨2024, 2, 29, 0, 0, 0⟩, 5, TxnType.expense, none⟩]
        (mkDate 2024 2 1) (mkDate 2024 2 29) := by
  have hgm : get_month_date_range "2024-02" =
      some (mkDate 2024 2 1, mkDate 2024 2 29) := by decide
  have hdim : daysInMonth 2024 2 = 29 := by decide
  have h1 := C10_end_is_midnight "2024-02" 2024 2 (by decide) (by decide)
    (by decide) (by decide) (mkDate 2024 2 1) (mkDate 2024 2 29) hgm
  constructor
  · intro hmem
    have hcontra := (h1.2.2.2.2.2
      [⟨1, 1, 1, ⟨2024, 2, 29, 12, 0, 0⟩, 5, TxnType.expense, none⟩]
      ⟨1, 1, 1, ⟨2024, 2, 29, 12, 0, 0⟩, 5, TxnType.expense, none⟩
      (by simp) rfl rfl (by decide)).mp hmem
    exact absurd hcontra.1 (by decide)
  · exact (h1.2.2.2.2.2
      [⟨1, 1, 1, ⟨2024, 2, 29, 0, 0, 0⟩, 5, TxnType.expense, none⟩]
      ⟨1, 1, 1, ⟨2024, 2, 29, 0, 0, 0⟩, 5, TxnType.expense, none⟩
      (by simp) rfl rfl (by decide)).mpr ⟨rfl, rfl, rfl⟩

end LedgerLite
